import Mathlib

/-!
Verification of the resource projection expression parser
(`googlecloudsdk/core/resource/resource_projection_parser.py`).

The parser is embedded shallowly at the token level: the Lexer, the
ProjectionSpec collaborator and the Filter Compiler are external to the
repository sources and are modelled from the specification, while every
function of `resource_projection_parser.py` itself (`_AngrySnakeCase`,
`_AddKey`, `_ParseKeyAttributes`, `_ParseKey`, `_ParseKeys`,
`_ParseAttributes`, `Parse`) is translated line by line.

Python object identity of `_Attribute` objects matters for the stated
invariants, so attributes live in a heap (a list indexed by ids); tree
nodes and column entries reference attributes by id.  Mutating an
attribute in place is a heap update at its id; `copy.copy` is a fresh
allocation.
-/

set_option maxRecDepth 8000

namespace RP

/-- Converted lexer token values.  `Token(..., convert=True)` yields ints or
strings; boolean clause forms yield Python booleans.  Modelled from the spec
(the Lexer is an external collaborator). -/
inductive Value where
  | vint (i : Int)
  | vstr (s : String)
  | vbool (b : Bool)
deriving DecidableEq, Repr

/-- Python truthiness of a clause value (0, the empty string and False are
falsy). -/
def Value.truthy : Value → Bool
  | .vint i => i != 0
  | .vstr s => s != ""
  | .vbool b => b

/-- One resource key path component: a field name, an integer index, or the
slice wildcard (Python `None`). -/
inductive KeyComp where
  | nm (s : String)
  | idx (i : Int)
  | wild
deriving DecidableEq, Repr

/-- A resource key: an ordered sequence of path components. -/
abbrev Key := List KeyComp

/-- A resolved transform reference: its resolved name and the optional
conditional expression it carries.  Modelled from the spec (the Transform
registry and the Lexer's `Transform()` are external collaborators). -/
structure Transform where
  tname : String
  conditional : Option String
deriving DecidableEq, Repr

/-- The projection algorithm flags `DEFAULT`, `INNER`, `PROJECT` of the
ProjectionSpec.  Modelled from the spec. -/
inductive Flag where
  | DEFAULT
  | INNER
  | PROJECT
deriving DecidableEq, Repr

/-- `Parser._Attribute`: per-key projection attribute.  `align = none` models
`ALIGN_DEFAULT`; `order`, `label` and `subformat` hold converted lexer
values exactly as the Python fields do. -/
structure Attr where
  flag : Flag
  order : Option Value := none
  label : Option Value := none
  reverse : Option Bool := none
  hidden : Bool := false
  align : Option Value := none
  transform : Option Transform := none
  subformat : Option Value := none
deriving DecidableEq, Repr

/-- `Parser._Tree`: a node holds its attribute by heap id (modelling Python
object identity) plus an insertion-ordered child map. -/
inductive TreeNode where
  | mk (aid : Nat) (kids : List (KeyComp × TreeNode))

/-- The attribute id of a tree node. -/
def TreeNode.attrId : TreeNode → Nat
  | .mk i _ => i

/-- The ordered child map of a tree node. -/
def TreeNode.children : TreeNode → List (KeyComp × TreeNode)
  | .mk _ c => c

/-- Child lookup in the insertion-ordered child map (Python dict lookup). -/
def childGet : List (KeyComp × TreeNode) → KeyComp → Option TreeNode
  | [], _ => none
  | (k, t) :: rest, c => if k = c then some t else childGet rest c

/-- Child update: replace in place if the key is present (a Python dict update
keeps the insertion position), otherwise append. -/
def childSet : List (KeyComp × TreeNode) → KeyComp → TreeNode → List (KeyComp × TreeNode)
  | [], c, t => [(c, t)]
  | (k, u) :: rest, c, t =>
    if k = c then (c, t) :: rest else (k, u) :: childSet rest c t

/-- Follow a path of components down the tree. -/
def lookupPath : TreeNode → List KeyComp → Option TreeNode
  | t, [] => some t
  | t, c :: rest =>
    match childGet t.children c with
    | some ch => lookupPath ch rest
    | none => none

/-- Heap read; ids produced by the parser are always in range, the default is
never observed there. -/
def heapGet (h : List Attr) (i : Nat) : Attr :=
  h.getD i { flag := .DEFAULT }

/-- Heap write (in-place mutation of one attribute object). -/
def heapSet (h : List Attr) (i : Nat) (a : Attr) : List Attr :=
  h.set i a

/-- `[a-z0-9]`, the lookbehind class of the snake-case regex. -/
def isLowerDigit (c : Char) : Bool :=
  c.isLower || c.isDigit

/-- The substitution `re.sub('((?<=[a-z0-9])[A-Z]+|(?!^)[A-Z](?=[a-z]))',
r'_\1', s)` of `Parser._AngrySnakeCase`, scanned left to right.  `prev` is
the previously consumed character and `inRun` records that we are inside a
`[A-Z]+` run already consumed by the first alternative. -/
def snakeGo : Option Char → Bool → List Char → List Char
  | _, _, [] => []
  | prev, inRun, c :: rest =>
    if c.isUpper then
      if inRun then c :: snakeGo (some c) true rest
      else if (match prev with | some p => isLowerDigit p | none => false) then
        '_' :: c :: snakeGo (some c) true rest
      else if prev.isSome && (match rest with | n :: _ => n.isLower | [] => false) then
        '_' :: c :: snakeGo (some c) false rest
      else c :: snakeGo (some c) false rest
    else c :: snakeGo (some c) false rest

/-- One key component rendered in ANGRY_SNAKE_CASE: regex substitution then
`.upper()`. -/
def snakeUpper (s : String) : String :=
  String.mk ((snakeGo none false s.toList).map Char.toUpper)

/-- The loop of `Parser._AngrySnakeCase` over the reversed key: name
components are accumulated right to left; as soon as the accumulated label is
not yet in the registry it is registered and returned. -/
def angrySnakeGo : List KeyComp → String → List String → String × List String
  | [], label, hs => (label, hs)
  | c :: rest, label, hs =>
    match c with
    | .nm n =>
      let ks := snakeUpper n
      let label' := if label = "" then ks else ks ++ "_" ++ label
      if label' ∈ hs then angrySnakeGo rest label' hs
      else (label', label' :: hs)
    | _ => angrySnakeGo rest label hs

/-- `Parser._AngrySnakeCase`: returns the computed label together with the
updated label registry (`_snake_headings`). -/
def angrySnake (hs : List String) (key : Key) : String × List String :=
  angrySnakeGo key.reverse "" hs

/-- The part of the parser / ProjectionSpec state that `_AddKey`,
`_ParseKeyAttributes`, `_ParseKey` and `_ParseKeys` read and write: the
attribute heap, the ordered column list (key plus attribute id, as appended
by `AddKey`), the alias table and the label registry.  The ProjectionSpec
side is modelled from the spec (`AddKey` appends a (key, attribute) pair to
the ordered column list; `AddAlias` registers label -> key). -/
structure Proj where
  heap : List Attr := []
  columns : List (Key × Nat) := []
  aliases : List (Value × Key) := []
  snakeHeadings : List String := []
deriving Repr

/-- `ProjectionSpec.AddAlias`, modelled from the spec: register
`label -> key`, overwriting an existing binding of the same label. -/
def addAlias (v : Value) (k : Key) (al : List (Value × Key)) : List (Value × Key) :=
  if al.any (fun p => p.1 = v) then al.map (fun p => if p.1 = v then (v, k) else p)
  else al ++ [(v, k)]

mutual
/-- `copy.deepcopy` of a projection subtree: every attribute of the subtree is
copied to a fresh heap id. -/
def cloneTree : TreeNode → List Attr → TreeNode × List Attr
  | .mk aid kids, h =>
    let p := cloneKids kids (h ++ [heapGet h aid])
    (.mk h.length p.1, p.2)

/-- Child-map part of `cloneTree`. -/
def cloneKids : List (KeyComp × TreeNode) → List Attr → List (KeyComp × TreeNode) × List Attr
  | [], h => ([], h)
  | (c, t) :: rest, h =>
    let p1 := cloneTree t h
    let p2 := cloneKids rest p1.2
    ((c, p1.1) :: p2.1, p2.2)
end

/-- Python truthiness of an optional value field (`None` is falsy). -/
def truthyOpt : Option Value → Bool
  | some v => v.truthy
  | none => false

/-- `Parser._AddKey` line 198-199: `order` propagates when set. -/
def mergeOrder (aa a : Attr) : Attr :=
  if aa.order.isSome then { a with order := aa.order } else a

/-- `Parser._AddKey` lines 200-203: an explicit `label` wins; otherwise a
still-unlabelled attribute gets an `_AngrySnakeCase` label, updating the
registry. -/
def mergeLabelStep (full : Key) (aa : Attr) (a : Attr) (hs : List String) :
    Attr × List String :=
  if aa.label.isSome then ({ a with label := aa.label }, hs)
  else if a.label = none then
    ({ a with label := some (.vstr (angrySnake hs full).1) }, (angrySnake hs full).2)
  else (a, hs)

/-- `Parser._AddKey` lines 204-205: a non-default `align` propagates. -/
def mergeAlign (aa a : Attr) : Attr :=
  if aa.align.isSome then { a with align := aa.align } else a

/-- `Parser._AddKey` lines 206-209: `reverse` propagates when set, else
defaults to false when still unset. -/
def mergeReverse (aa a : Attr) : Attr :=
  if aa.reverse.isSome then { a with reverse := aa.reverse }
  else if a.reverse = none then { a with reverse := some false } else a

/-- `Parser._AddKey` lines 210-211: a truthy `transform` propagates. -/
def mergeTransform (aa a : Attr) : Attr :=
  if aa.transform.isSome then { a with transform := aa.transform } else a

/-- `Parser._AddKey` lines 212-213: a truthy `subformat` propagates. -/
def mergeSubformat (aa a : Attr) : Attr :=
  if truthyOpt aa.subformat then { a with subformat := aa.subformat } else a

/-- The value computation of `Parser._AddKey` lines 197-213, applying the
field merges in source order.  Returns the merged attribute and the updated
label registry. -/
def mergeValues (full : Key) (attrAdd : Attr) (a0 : Attr) (hs : List String) :
    Attr × List String :=
  let lp := mergeLabelStep full attrAdd (mergeOrder attrAdd a0) hs
  (mergeSubformat attrAdd
    (mergeTransform attrAdd (mergeReverse attrAdd (mergeAlign attrAdd lp.1))), lp.2)

/-- `Parser._AddKey` lines 197-214: merge `attribute_add` into the attribute
at heap id `wid` in place, then register the merged label as an alias. -/
def mergeAttr (full : Key) (attrAdd : Attr) (wid : Nat) (s : Proj) : Proj :=
  let mv := mergeValues full attrAdd (heapGet s.heap wid) s.snakeHeadings
  let al := match mv.1.label with
            | some l => addAlias l full s.aliases
            | none => s.aliases
  { s with heap := heapSet s.heap wid mv.1, snakeHeadings := mv.2, aliases := al }

/-- `Parser._AddKey` lines 216-222: set the final flag and, when the key is in
the projection, append it to the column list. -/
def finishTerminal (kao : Bool) (full : Key) (wid : Nat) (nameInTree : Bool)
    (node : TreeNode) (s : Proj) : TreeNode × Proj :=
  if !kao || (heapGet s.heap wid).hidden then
    (node, { s with heap := heapSet s.heap wid { heapGet s.heap wid with flag := .PROJECT },
                    columns := s.columns ++ [(full, wid)] })
  else if !nameInTree then
    (node, { s with heap := heapSet s.heap wid { heapGet s.heap wid with flag := .DEFAULT } })
  else (node, s)

/-- In-place `attribute.hidden = False` (line 184) on the attribute at `wid`. -/
def setHidden (wid : Nat) (s : Proj) : Proj :=
  { s with heap := heapSet s.heap wid { heapGet s.heap wid with hidden := false } }

/-- `Parser._AddKey` lines 171-184 and the merge/flag steps, for a terminal
component already present in the tree: outside key-attributes-only mode, a
key that is already a registered column gets a copy of its attribute (the
copy, not the tree attribute, is merged and added to the columns); otherwise
the tree attribute itself is mutated.  Either way `hidden` is cleared
first. -/
def addExisting (kao : Bool) (full : Key) (attrAdd : Attr) (child : TreeNode)
    (node : TreeNode) (s : Proj) : TreeNode × Proj :=
  if !kao && s.columns.any (fun col => col.1 = full) then
    finishTerminal kao full s.heap.length true node
      (mergeAttr full attrAdd s.heap.length
        (setHidden s.heap.length
          { s with heap := s.heap ++ [heapGet s.heap child.attrId] }))
  else
    finishTerminal kao full child.attrId true node
      (mergeAttr full attrAdd child.attrId (setHidden child.attrId s))

/-- `Parser._AddKey` lines 189-195 and the merge/flag steps, for a brand-new
terminal component: the (possibly hidden-marked) `attribute_add` is allocated
and attached to the tree when the key is nonempty or a transform is
present. -/
def addNewProjection (kao : Bool) (full : Key) (attrAdd : Attr) (c : KeyComp)
    (node : TreeNode) (s : Proj) : TreeNode × Proj :=
  finishTerminal kao full s.heap.length false
    (if full ≠ [] || attrAdd.transform.isSome then
       TreeNode.mk node.attrId (childSet node.children c (.mk s.heap.length []))
     else node)
    (mergeAttr full attrAdd s.heap.length
      { s with heap := s.heap ++ [if kao && truthyOpt attrAdd.order then
          { attrAdd with hidden := true } else attrAdd] })

/-- `Parser._AddKey` lines 166-222: terminal-node handling for component `c`
(`''` for the empty key), followed by the merge and the flag step.  The
middle branch is the slice-defaults clone of lines 185-188. -/
def addTerminal (kao : Bool) (full : Key) (attrAdd : Attr) (c : KeyComp)
    (node : TreeNode) (s : Proj) : TreeNode × Proj :=
  match childGet node.children c with
  | some child => addExisting kao full attrAdd child node s
  | none =>
    match c, childGet node.children .wild with
    | .idx i, some wnode =>
      finishTerminal kao full (cloneTree wnode s.heap).1.attrId false
        (TreeNode.mk node.attrId (childSet node.children (.idx i) (cloneTree wnode s.heap).1))
        (mergeAttr full attrAdd (cloneTree wnode s.heap).1.attrId
          { s with heap := (cloneTree wnode s.heap).2 })
    | _, _ => addNewProjection kao full attrAdd c node s

/-- `Parser._AddKey` lines 156-161, the step for one existing inner node:
downgrade its flag to `INNER` unless it is already `PROJECT`. -/
def innerFlagStep (h : List Attr) (i : Nat) : List Attr :=
  if (heapGet h i).flag ≠ .PROJECT then heapSet h i { heapGet h i with flag := .INNER }
  else h

/-- The walk of `Parser._AddKey`: inner steps over `key[:-1]`, then the
terminal step at `key[-1]` (`''` when the key is empty). -/
def addKeyAux (kao : Bool) (full : Key) (attrAdd : Attr) :
    List KeyComp → TreeNode → Proj → TreeNode × Proj
  | [], node, s => addTerminal kao full attrAdd (.nm "") node s
  | [c], node, s => addTerminal kao full attrAdd c node s
  | c :: c2 :: rest, node, s =>
    match childGet node.children c with
    | some child =>
      let s1 := { s with heap := innerFlagStep s.heap child.attrId }
      let p := addKeyAux kao full attrAdd (c2 :: rest) child s1
      (TreeNode.mk node.attrId (childSet node.children c p.1), p.2)
    | none =>
      let cid := s.heap.length
      let s1 := { s with heap := s.heap ++ [{ flag := Flag.INNER }] }
      let p := addKeyAux kao full attrAdd (c2 :: rest) (.mk cid []) s1
      (TreeNode.mk node.attrId (childSet node.children c p.1), p.2)

/-- `Parser._AddKey`: propagate default attribute values and add `key` to the
projection rooted at `root`. -/
def addKey (kao : Bool) (key : Key) (attrAdd : Attr) (root : TreeNode) (s : Proj) :
    TreeNode × Proj :=
  addKeyAux kao key attrAdd key root s

/-- The single error kind of the parser, `ExpressionSyntaxError`. -/
inductive Err where
  | expressionSyntaxError (msg : String)
deriving DecidableEq, Repr

/-- `Parser._BOOLEAN_ATTRIBUTES`. -/
def BOOLEAN_ATTRIBUTES : List String := ["reverse"]

/-- `resource_projection_spec.ALIGNMENTS`, modelled from the spec: the
supported alignment names. -/
def ALIGNMENTS : List Value := [.vstr "left", .vstr "center", .vstr "right"]

/-- One `name[=value]` key-attribute clause as delivered by the Lexer:
the raw token before `no-` stripping, and the converted value when the
`=value` form was used (`none` is the boolean form). -/
structure Clause where
  cname : String
  cval : Option Value
deriving DecidableEq, Repr

/-- One iteration of the `Parser._ParseKeyAttributes` loop (lines 237-278):
boolean-form handling with the `no-` prefix, the boolean/value checks, and
the clause-name dispatch. -/
def parseClause (key : Key) (c : Clause) (attr : Attr) (s : Proj) :
    Except Err (Attr × Proj) :=
  let nmv : String × Value × Bool :=
    match c.cval with
    | some v => (c.cname, v, false)
    | none =>
      if c.cname.startsWith "no-" then (c.cname.drop 3, .vbool false, true)
      else (c.cname, .vbool true, true)
  let nm := nmv.1
  let value := nmv.2.1
  let booleanValue := nmv.2.2
  if BOOLEAN_ATTRIBUTES.contains nm && !booleanValue then
    .error (.expressionSyntaxError "value not expected")
  else if !BOOLEAN_ATTRIBUTES.contains nm && booleanValue then
    .error (.expressionSyntaxError "value expected")
  else if nm = "alias" then
    if !value.truthy then .error (.expressionSyntaxError "Cannot unset alias")
    else .ok (attr, { s with aliases := addAlias value key s.aliases })
  else if nm = "align" then
    if !ALIGNMENTS.contains value then .error (.expressionSyntaxError "Unknown alignment")
    else .ok ({ attr with align := some value }, s)
  else if nm = "format" then
    .ok ({ attr with subformat := some (if value.truthy then value else .vstr "") }, s)
  else if nm = "label" then
    .ok ({ attr with label := some (if value.truthy then value else .vstr "") }, s)
  else if nm = "reverse" then
    .ok ({ attr with reverse := some value.truthy }, s)
  else if nm = "sort" then
    .ok ({ attr with order := some value }, s)
  else .error (.expressionSyntaxError "Unknown key attribute")

/-- `Parser._ParseKeyAttributes`: the `:`-separated clause chain, left to
right, aborting at the first syntax error. -/
def parseClauses (key : Key) : List Clause → Attr → Proj → Except Err (Attr × Proj)
  | [], attr, s => .ok (attr, s)
  | c :: rest, attr, s =>
    match parseClause key c attr s with
    | .error e => .error e
    | .ok p => parseClauses key rest p.1 p.2

/-- One key of a `(...)` group as delivered by the Lexer: the parsed key, the
resolved transform when a `(` followed (its name is the popped last key
component after registry resolution), and the parsed attribute clauses. -/
structure KeyItem where
  rawKey : Key
  xform : Option Transform
  clauses : List Clause
deriving Repr

/-- The conditional gate of `Parser._ParseKey` lines 305-316: true when the
key's transform carries a conditional expression that evaluates false against
the `__conditionals__` symbols (`conds`; the Filter Compiler is external,
modelled from the spec). -/
def condFalse (conds : String → Bool) (xf : Option Transform) : Bool :=
  match xf with
  | some t =>
    match t.conditional with
    | some ce => !conds ce
    | none => false
  | none => false

/-- `Parser._ParseKey`: build the fresh `PROJECT` attribute, run the clause
chain, discard the key when its transform conditional evaluates false, seed
the label from the transform name for an empty key, then `_AddKey`. -/
def parseKey (conds : String → Bool) (item : KeyItem) (kao : Bool) (root : TreeNode)
    (s : Proj) : Except Err (TreeNode × Proj) :=
  let key := if item.xform.isSome then item.rawKey.dropLast else item.rawKey
  let attr0 : Attr := { flag := .PROJECT, transform := item.xform }
  match parseClauses key item.clauses attr0 s with
  | .error e => .error e
  | .ok q =>
    if condFalse conds q.1.transform then .ok (root, q.2)
    else
      let as2 : Attr × Proj :=
        match item.xform with
        | some t =>
          if t.tname ≠ "" && q.1.label = none && key = [] then
            let p := angrySnake q.2.snakeHeadings [.nm t.tname]
            ({ q.1 with label := some (.vstr p.1) }, { q.2 with snakeHeadings := p.2 })
          else (q.1, q.2)
        | none => (q.1, q.2)
      .ok (addKey kao key as2.1 root as2.2)

/-- `Parser._ParseKeys`: the comma-separated key list of one `(...)` group. -/
def parseKeys (conds : String → Bool) :
    List KeyItem → Bool → TreeNode → Proj → Except Err (TreeNode × Proj)
  | [], _, root, s => .ok (root, s)
  | it :: rest, kao, root, s =>
    match parseKey conds it kao root s with
    | .error e => .error e
    | .ok p => parseKeys conds rest kao p.1 p.2

/-- One `[no-]name[=value]` token of a `[...]` attribute list. -/
structure RawAttr where
  aname : String
  aval : Option Value
deriving Repr

/-- `ProjectionSpec.DelAttribute`, modelled from the spec. -/
def delAttr (n : String) (l : List (String × Value)) : List (String × Value) :=
  l.filter (fun p => p.1 ≠ n)

/-- `ProjectionSpec.AddAttribute`, modelled from the spec: set the attribute,
overwriting an existing one of the same name. -/
def setAttr (n : String) (v : Value) (l : List (String × Value)) : List (String × Value) :=
  if l.any (fun p => p.1 = n) then l.map (fun p => if p.1 = n then (n, v) else p)
  else l ++ [(n, v)]

/-- The full parser / ProjectionSpec state: the key-level state plus the
spec's format name, global attribute set, the `Defaults()` hook invocation
count (the hook itself is an external collaborator, modelled from the spec),
and the spec's root and empty trees. -/
structure Spec where
  proj : Proj := {}
  sname : Option String := none
  sattrs : List (String × Value) := []
  defaultsCalls : Nat := 0
  root : Option TreeNode := none
  empty : Option TreeNode := none

/-- `ProjectionSpec.Defaults()`: an external hook; the model records the
invocation. -/
def callDefaults (s : Spec) : Spec :=
  { s with defaultsCalls := s.defaultsCalls + 1 }

/-- `Parser._ParseAttributes` body for one `[...]` list: empty names are
skipped; a missing `=value` stores 1; a `no-` name deletes its positive
counterpart and vice versa. -/
def parseGlobalAttrs : List RawAttr → Spec → Spec
  | [], s => s
  | a :: rest, s =>
    if a.aname = "" then parseGlobalAttrs rest s
    else
      let v := a.aval.getD (.vint 1)
      let s1 := { s with sattrs := setAttr a.aname v s.sattrs }
      let s2 := if a.aname.startsWith "no-" then
                  { s1 with sattrs := delAttr (a.aname.drop 3) s1.sattrs }
                else
                  { s1 with sattrs := delAttr ("no-" ++ a.aname) s1.sattrs }
      parseGlobalAttrs rest s2

/-- One top-level segment of a projection expression, per the grammar:
a `(...)` key group, a `[...]` attribute list, a bare `:`, or a format
name token. -/
inductive Segment where
  | group (items : List KeyItem)
  | attrs (l : List RawAttr)
  | colon
  | sname (n : String)

/-- Python `str.isalpha`: nonempty and all alphabetic. -/
def isAlphaName (n : String) : Bool :=
  n ≠ "" && n.toList.all Char.isAlpha

/-- The `while self._lex.SkipSpace()` loop of `Parser.Parse` (lines 392-413)
over the token-level segments, threading the key-attributes-only mode `kao`
and the pending-defaults flag, and invoking `Defaults()` at end of input when
the flag is still set.  Returns the final mode together with the tree root
and state. -/
def parseSegments (conds : String → Bool) :
    List Segment → Bool → Bool → TreeNode → Spec → Except Err (Bool × TreeNode × Spec)
  | [], kao, pend, root, s => .ok (kao, root, if pend then callDefaults s else s)
  | .group items :: rest, kao, pend, root, s =>
    let ps := if !kao then (false, callDefaults s) else (pend, s)
    match parseKeys conds items kao root ps.2.proj with
    | .error e => .error e
    | .ok p => parseSegments conds rest kao ps.1 p.1 { ps.2 with proj := p.2 }
  | .attrs l :: rest, kao, pend, root, s =>
    parseSegments conds rest kao pend root (parseGlobalAttrs l s)
  | .colon :: rest, _, pend, root, s =>
    parseSegments conds rest true pend root s
  | .sname n :: rest, _, _, root, s =>
    if !isAlphaName n then .error (.expressionSyntaxError "Name expected")
    else parseSegments conds rest false true root { s with sname := some n }

/-- `Parser.Parse`: ensure a root tree exists (creating a fresh
`DEFAULT`-flagged root only when the spec has none), install a fresh
`PROJECT`-flagged empty tree via `SetEmpty`, and, when an expression is
present (`none` models Python-falsy `None` or `''`), run the segment loop.
-/
def Parse (conds : String → Bool) (expr : Option (List Segment)) (s : Spec) :
    Except Err Spec :=
  let rh : TreeNode × List Attr :=
    match s.root with
    | some r => (r, s.proj.heap)
    | none => (TreeNode.mk s.proj.heap.length [], s.proj.heap ++ [{ flag := Flag.DEFAULT }])
  let s1 : Spec :=
    { s with proj := { s.proj with heap := rh.2 ++ [{ flag := Flag.PROJECT }] },
             empty := some (TreeNode.mk rh.2.length []),
             root := some rh.1 }
  match expr with
  | none => .ok s1
  | some segs =>
    match parseSegments conds segs false false rh.1 s1 with
    | .error e => .error e
    | .ok p => .ok { p.2.2 with root := some p.2.1 }

/-- The resulting ProjectionSpec of a successful parse (the error case is
never hit where this is used). -/
def specOf (r : Except Err Spec) : Spec :=
  match r with
  | .ok s => s
  | .error _ => {}

/-- The number of `Defaults()` invocations `Parser.Parse` performs on a
segment list, given the key-attributes-only mode and the pending-defaults
flag on entry: one before every `(...)` group encountered while not in
key-attributes-only mode, plus one at end of input when a name was set and
no such group followed it. -/
def defaultsCount : List Segment → Bool → Bool → Nat
  | [], _, pend => if pend then 1 else 0
  | .group _ :: rest, kao, pend =>
    if !kao then 1 + defaultsCount rest kao false else defaultsCount rest kao pend
  | .attrs _ :: rest, kao, pend => defaultsCount rest kao pend
  | .colon :: rest, _, pend => defaultsCount rest true pend
  | .sname _ :: rest, _, _ => defaultsCount rest false true

/-- The key-attributes-only mode after a segment list: `:` sets it, a name
segment clears it, and `(...)` groups and `[...]` lists leave it unchanged. -/
def kaoAfter : List Segment → Bool → Bool
  | [], kao => kao
  | .group _ :: rest, kao => kaoAfter rest kao
  | .attrs _ :: rest, kao => kaoAfter rest kao
  | .colon :: rest, _ => kaoAfter rest true
  | .sname _ :: rest, _ => kaoAfter rest false

/-- C1 (counterexample): in `":(a:sort=1)(a)"` the first (key-attributes-only)
group does NOT leave key `a` off the column list with flag `DEFAULT`: because
`sort=1` sets an order in key-attributes-only mode, the attribute is marked
hidden and immediately projected, so after the first group `a` is already a
column (at attribute id 2) with flag `PROJECT` and `hidden = true`; and the
second group adds no column of its own (the full parse still has exactly that
one column entry). -/
theorem C1_counterexample :
    (specOf (Parse (fun _ => true)
        (some [.colon, .group [⟨[.nm "a"], none, [⟨"sort", some (.vint 1)⟩]⟩]])
        {})).proj.columns = [([KeyComp.nm "a"], 2)] ∧
    (heapGet (specOf (Parse (fun _ => true)
        (some [.colon, .group [⟨[.nm "a"], none, [⟨"sort", some (.vint 1)⟩]⟩]])
        {})).proj.heap 2).flag = Flag.PROJECT ∧
    (heapGet (specOf (Parse (fun _ => true)
        (some [.colon, .group [⟨[.nm "a"], none, [⟨"sort", some (.vint 1)⟩]⟩]])
        {})).proj.heap 2).hidden = true ∧
    (specOf (Parse (fun _ => true)
        (some [.colon, .group [⟨[.nm "a"], none, [⟨"sort", some (.vint 1)⟩]⟩],
               .group [⟨[.nm "a"], none, []⟩]])
        {})).proj.columns = [([KeyComp.nm "a"], 2)] := by
  decide

/-- C1 (amended): for `":(a:sort=1)(a)"`, the first group records `order=1`
and, because an order was set in key-attributes-only mode, marks the
attribute hidden and immediately projects it as a hidden column; the second
group — still in key-attributes-only mode, which persists across groups —
reuses the same attribute object (id 2), clears `hidden` and adds no second
column; after Parse, `a` is a single `PROJECT` column whose attribute has
`order=1`. -/
theorem C1_amended :
    (specOf (Parse (fun _ => true)
        (some [.colon, .group [⟨[.nm "a"], none, [⟨"sort", some (.vint 1)⟩]⟩],
               .group [⟨[.nm "a"], none, []⟩]])
        {})).proj.columns = [([KeyComp.nm "a"], 2)] ∧
    heapGet (specOf (Parse (fun _ => true)
        (some [.colon, .group [⟨[.nm "a"], none, [⟨"sort", some (.vint 1)⟩]⟩],
               .group [⟨[.nm "a"], none, []⟩]])
        {})).proj.heap 2 =
      { flag := .PROJECT, order := some (.vint 1), label := some (.vstr "A"),
        reverse := some false, hidden := false } ∧
    ((specOf (Parse (fun _ => true)
        (some [.colon, .group [⟨[.nm "a"], none, [⟨"sort", some (.vint 1)⟩]⟩],
               .group [⟨[.nm "a"], none, []⟩]])
        {})).root.bind (fun r => lookupPath r [.nm "a"])).map TreeNode.attrId = some 2 ∧
    (heapGet (specOf (Parse (fun _ => true)
        (some [.colon, .group [⟨[.nm "a"], none, [⟨"sort", some (.vint 1)⟩]⟩]])
        {})).proj.heap 2).hidden = true := by
  decide

/-- C2 (counterexample): parsing `"(a)(b)"` invokes the `Defaults()` hook
twice in one `Parse` call — once before each `(...)` group encountered while
not in key-attributes-only mode — refuting "never invoked twice for one
parse". -/
theorem C2_counterexample :
    (specOf (Parse (fun _ => true)
        (some [.group [⟨[.nm "a"], none, []⟩], .group [⟨[.nm "b"], none, []⟩]])
        {})).defaultsCalls = 2 := by
  decide

/-- C3 (counterexample): in `":(a:sort=1)(b)"` the `:` mode is NOT limited to
the next `(...)` group: the second group is also parsed in
key-attributes-only mode, so `b` is recorded in the tree (at attribute id 3)
with flag `DEFAULT` and is not projected — the column list holds only the
hidden `a` entry. -/
theorem C3_counterexample :
    (specOf (Parse (fun _ => true)
        (some [.colon, .group [⟨[.nm "a"], none, [⟨"sort", some (.vint 1)⟩]⟩],
               .group [⟨[.nm "b"], none, []⟩]])
        {})).proj.columns = [([KeyComp.nm "a"], 2)] ∧
    ((specOf (Parse (fun _ => true)
        (some [.colon, .group [⟨[.nm "a"], none, [⟨"sort", some (.vint 1)⟩]⟩],
               .group [⟨[.nm "b"], none, []⟩]])
        {})).root.bind (fun r => lookupPath r [.nm "b"])).map TreeNode.attrId = some 3 ∧
    (heapGet (specOf (Parse (fun _ => true)
        (some [.colon, .group [⟨[.nm "a"], none, [⟨"sort", some (.vint 1)⟩]⟩],
               .group [⟨[.nm "b"], none, []⟩]])
        {})).proj.heap 3).flag = Flag.DEFAULT := by
  decide

/-- C4 (counterexample): parsing `"(a,a)"` — where neither mention of `a`
carries any transform — still creates a copy of the attribute for the second
column entry: the column list holds two entries for the same key with
different attribute ids (2 and 3), while the tree node for `a` keeps id 2.
This refutes "repeated insertion of that same key mutates the one tree
Attribute in place, except when ... with a new transform": the copy is made
whenever the key is already a registered column, transform or not. -/
theorem C4_counterexample :
    (specOf (Parse (fun _ => true)
        (some [.group [⟨[.nm "a"], none, []⟩, ⟨[.nm "a"], none, []⟩]])
        {})).proj.columns = [([KeyComp.nm "a"], 2), ([KeyComp.nm "a"], 3)] ∧
    ((specOf (Parse (fun _ => true)
        (some [.group [⟨[.nm "a"], none, []⟩, ⟨[.nm "a"], none, []⟩]])
        {})).root.bind (fun r => lookupPath r [.nm "a"])).map TreeNode.attrId = some 2 := by
  decide

/-- C5 (counterexample): after parsing `"(a,a)"`, the two `PROJECT`-flagged
columns carry the same label `"A"` — PROJECT-column labels are not pairwise
distinct. -/
theorem C5_counterexample :
    (heapGet (specOf (Parse (fun _ => true)
        (some [.group [⟨[.nm "a"], none, []⟩, ⟨[.nm "a"], none, []⟩]])
        {})).proj.heap 2).flag = Flag.PROJECT ∧
    (heapGet (specOf (Parse (fun _ => true)
        (some [.group [⟨[.nm "a"], none, []⟩, ⟨[.nm "a"], none, []⟩]])
        {})).proj.heap 3).flag = Flag.PROJECT ∧
    (heapGet (specOf (Parse (fun _ => true)
        (some [.group [⟨[.nm "a"], none, []⟩, ⟨[.nm "a"], none, []⟩]])
        {})).proj.heap 2).label = some (.vstr "A") ∧
    (heapGet (specOf (Parse (fun _ => true)
        (some [.group [⟨[.nm "a"], none, []⟩, ⟨[.nm "a"], none, []⟩]])
        {})).proj.heap 3).label = some (.vstr "A") ∧
    (specOf (Parse (fun _ => true)
        (some [.group [⟨[.nm "a"], none, []⟩, ⟨[.nm "a"], none, []⟩]])
        {})).proj.columns = [([KeyComp.nm "a"], 2), ([KeyComp.nm "a"], 3)] := by
  decide

theorem parseGlobalAttrs_defaultsCalls (l : List RawAttr) :
    ∀ s : Spec, (parseGlobalAttrs l s).defaultsCalls = s.defaultsCalls := by
  induction l with
  | nil => intro s; rfl
  | cons a rest ih =>
    intro s
    simp only [parseGlobalAttrs]
    split
    · exact ih s
    · split <;> exact ih _

/-- C2 (amended): during one segment loop, `Defaults()` is invoked exactly
`defaultsCount` many times: once before every `(...)` group encountered while
not in key-attributes-only mode (hence in particular before the first), plus
once at end of input when a format name was set and no such group followed
it.  It can therefore fire more than once per parse. -/
theorem C2_amended (conds : String → Bool) :
    ∀ (segs : List Segment) (kao pend : Bool) (root : TreeNode) (s : Spec)
      (kao' : Bool) (root' : TreeNode) (s' : Spec),
      parseSegments conds segs kao pend root s = .ok (kao', root', s') →
      s'.defaultsCalls = s.defaultsCalls + defaultsCount segs kao pend := by
  intro segs
  induction segs with
  | nil =>
    intro kao pend root s kao' root' s' h
    simp only [parseSegments, Except.ok.injEq, Prod.mk.injEq] at h
    obtain ⟨-, -, hs⟩ := h
    subst hs
    cases pend <;> simp [defaultsCount, callDefaults]
  | cons seg rest ih =>
    cases seg with
    | group items =>
      intro kao pend root s kao' root' s' h
      cases kao with
      | false =>
        simp only [parseSegments, Bool.not_false, if_pos] at h
        cases hpk : parseKeys conds items false root (callDefaults s).proj with
        | error e => rw [hpk] at h; exact absurd h (by simp)
        | ok p =>
          rw [hpk] at h
          have := ih false false p.1 { callDefaults s with proj := p.2 } kao' root' s' h
          simp only [callDefaults] at this ⊢
          simp [defaultsCount, this]
          omega
      | true =>
        simp only [parseSegments, Bool.not_true] at h
        rw [if_neg Bool.false_ne_true] at h
        cases hpk : parseKeys conds items true root s.proj with
        | error e => rw [hpk] at h; exact absurd h (by simp)
        | ok p =>
          rw [hpk] at h
          have := ih true pend p.1 { s with proj := p.2 } kao' root' s' h
          simpa [defaultsCount] using this
    | attrs l =>
      intro kao pend root s kao' root' s' h
      simp only [parseSegments] at h
      have := ih kao pend root (parseGlobalAttrs l s) kao' root' s' h
      simpa [defaultsCount, parseGlobalAttrs_defaultsCalls] using this
    | colon =>
      intro kao pend root s kao' root' s' h
      simp only [parseSegments] at h
      have := ih true pend root s kao' root' s' h
      simpa [defaultsCount] using this
    | sname n =>
      intro kao pend root s kao' root' s' h
      simp only [parseSegments] at h
      split at h
      · exact absurd h (by simp)
      · have := ih false true root { s with sname := some n } kao' root' s' h
        simpa [defaultsCount] using this

/-- C2 (amended, witness): a single `(...)` group entered while not in
key-attributes-only mode triggers exactly one `Defaults()` call. -/
theorem C2_amended_witness :
    parseSegments (fun _ => true) [.group []] false false (.mk 0 []) {} =
      .ok (false, .mk 0 [], { defaultsCalls := 1 }) ∧
    ({ defaultsCalls := 1 } : Spec).defaultsCalls =
      ({} : Spec).defaultsCalls + defaultsCount [.group []] false false :=
  ⟨rfl, C2_amended (fun _ => true) [.group []] false false (.mk 0 []) {}
    false (.mk 0 []) { defaultsCalls := 1 } rfl⟩

/-- C3 (amended): a `:` segment sets key-attributes-only mode and the mode
persists across subsequent `(...)` groups (a group never resets it); it is
cleared only by a name segment.  So after `:` every following group up to the
next name segment — not just the next one — is parsed in key-attributes-only
mode. -/
theorem C3_amended (conds : String → Bool) :
    ∀ (segs : List Segment) (kao pend : Bool) (root : TreeNode) (s : Spec)
      (kao' : Bool) (root' : TreeNode) (s' : Spec),
      parseSegments conds segs kao pend root s = .ok (kao', root', s') →
      kao' = kaoAfter segs kao := by
  intro segs
  induction segs with
  | nil =>
    intro kao pend root s kao' root' s' h
    simp only [parseSegments, Except.ok.injEq, Prod.mk.injEq] at h
    obtain ⟨hk, -, -⟩ := h
    simp [kaoAfter, hk.symm]
  | cons seg rest ih =>
    cases seg with
    | group items =>
      intro kao pend root s kao' root' s' h
      cases kao with
      | false =>
        simp only [parseSegments, Bool.not_false, if_pos] at h
        cases hpk : parseKeys conds items false root (callDefaults s).proj with
        | error e => rw [hpk] at h; exact absurd h (by simp)
        | ok p =>
          rw [hpk] at h
          simpa [kaoAfter] using
            ih false false p.1 { callDefaults s with proj := p.2 } kao' root' s' h
      | true =>
        simp only [parseSegments, Bool.not_true] at h
        rw [if_neg Bool.false_ne_true] at h
        cases hpk : parseKeys conds items true root s.proj with
        | error e => rw [hpk] at h; exact absurd h (by simp)
        | ok p =>
          rw [hpk] at h
          simpa [kaoAfter] using ih true pend p.1 { s with proj := p.2 } kao' root' s' h
    | attrs l =>
      intro kao pend root s kao' root' s' h
      simp only [parseSegments] at h
      simpa [kaoAfter] using ih kao pend root (parseGlobalAttrs l s) kao' root' s' h
    | colon =>
      intro kao pend root s kao' root' s' h
      simp only [parseSegments] at h
      simpa [kaoAfter] using ih true pend root s kao' root' s' h
    | sname n =>
      intro kao pend root s kao' root' s' h
      simp only [parseSegments] at h
      split at h
      · exact absurd h (by simp)
      · simpa [kaoAfter] using ih false true root { s with sname := some n } kao' root' s' h

/-- C3 (amended, witness): after a bare `:` the mode is set, matching
`kaoAfter`. -/
theorem C3_amended_witness :
    parseSegments (fun _ => true) [.colon] false false (.mk 0 []) {} =
      .ok (true, .mk 0 [], {}) ∧
    true = kaoAfter [.colon] false :=
  ⟨rfl, C3_amended (fun _ => true) [.colon] false false (.mk 0 []) {}
    true (.mk 0 []) {} rfl⟩

theorem angrySnakeGo_reg :
    ∀ (comps : List KeyComp) (label : String) (hs : List String) (l : String)
      (hs' : List String),
      angrySnakeGo comps label hs = (l, hs') → hs' = l :: hs → l ∉ hs := by
  intro comps
  induction comps with
  | nil =>
    intro label hs l hs' h he
    simp only [angrySnakeGo, Prod.mk.injEq] at h
    obtain ⟨-, h2⟩ := h
    rw [← h2] at he
    have := congrArg List.length he
    simp at this
  | cons c rest ih =>
    intro label hs l hs' h he
    cases c with
    | nm n =>
      simp only [angrySnakeGo] at h
      generalize hL : (if label = "" then snakeUpper n else snakeUpper n ++ "_" ++ label) = L at h
      by_cases hmem : L ∈ hs
      · rw [if_pos hmem] at h
        exact ih _ _ _ _ h he
      · rw [if_neg hmem] at h
        simp only [Prod.mk.injEq] at h
        obtain ⟨h1, -⟩ := h
        rw [← h1]
        exact hmem
    | idx i => exact ih _ _ _ _ h he
    | wild => exact ih _ _ _ _ h he

/-- C5 (amended): within one parse, any two labels that `_AngrySnakeCase`
freshly registers in the label registry are distinct (each successful
registration returns a label absent from the registry it extends).  The
original all-PROJECT-columns claim fails for duplicate columns, for explicit
`label=` clauses and when disambiguation exhausts all components. -/
theorem C5_amended :
    ∀ (hs : List String) (k1 k2 : Key) (l1 l2 : String) (hs1 hs2 : List String),
      angrySnake hs k1 = (l1, hs1) → hs1 = l1 :: hs →
      angrySnake hs1 k2 = (l2, hs2) → hs2 = l2 :: hs1 → l1 ≠ l2 := by
  intro hs k1 k2 l1 l2 hs1 hs2 h1 e1 h2 e2
  have hnotin : l2 ∉ hs1 := angrySnakeGo_reg _ _ _ _ _ h2 e2
  rw [e1] at hnotin
  intro hl
  exact hnotin (hl ▸ List.mem_cons_self _ _)

/-- C5 (amended, witness): two consecutive registering calls on keys `a` and
`b` return the distinct labels `A` and `B`. -/
theorem C5_amended_witness :
    angrySnake [] [KeyComp.nm "a"] = ("A", ["A"]) ∧
    (["A"] : List String) = "A" :: [] ∧
    angrySnake ["A"] [KeyComp.nm "b"] = ("B", ["B", "A"]) ∧
    (["B", "A"] : List String) = "B" :: ["A"] ∧
    "A" ≠ "B" :=
  ⟨by decide, rfl, by decide, rfl,
   C5_amended [] [KeyComp.nm "a"] [KeyComp.nm "b"] "A" "B" ["A"] ["B", "A"]
     (by decide) rfl (by decide) rfl⟩

set_option maxHeartbeats 1600000 in
theorem parseClause_frame (key : Key) (c : Clause) (attr : Attr) (s : Proj)
    (attr' : Attr) (s' : Proj) (h : parseClause key c attr s = .ok (attr', s')) :
    attr'.transform = attr.transform ∧ s'.columns = s.columns ∧
    s'.heap = s.heap ∧ s'.snakeHeadings = s.snakeHeadings := by
  unfold parseClause at h
  cases hcv : c.cval with
  | some v =>
    rw [hcv] at h
    simp only at h
    split_ifs at h <;> injection h with h' <;> injection h' with ha hs2 <;>
      subst ha <;> subst hs2 <;> exact ⟨rfl, rfl, rfl, rfl⟩
  | none =>
    rw [hcv] at h
    simp only at h
    split_ifs at h <;> injection h with h' <;> injection h' with ha hs2 <;>
      subst ha <;> subst hs2 <;> exact ⟨rfl, rfl, rfl, rfl⟩

theorem parseClauses_frame (key : Key) :
    ∀ (cs : List Clause) (attr : Attr) (s : Proj) (attr' : Attr) (s' : Proj),
      parseClauses key cs attr s = .ok (attr', s') →
      attr'.transform = attr.transform ∧ s'.columns = s.columns ∧
      s'.heap = s.heap ∧ s'.snakeHeadings = s.snakeHeadings := by
  intro cs
  induction cs with
  | nil =>
    intro attr s attr' s' h
    simp only [parseClauses, Except.ok.injEq, Prod.mk.injEq] at h
    obtain ⟨h1, h2⟩ := h
    subst h1
    subst h2
    simp
  | cons c rest ih =>
    intro attr s attr' s' h
    simp only [parseClauses] at h
    cases hc : parseClause key c attr s with
    | error e => rw [hc] at h; exact absurd h (by simp)
    | ok p =>
      rw [hc] at h
      obtain ⟨f1, f2, f3, f4⟩ := parseClause_frame key c attr s p.1 p.2 hc
      obtain ⟨g1, g2, g3, g4⟩ := ih p.1 p.2 attr' s' h
      exact ⟨g1.trans f1, g2.trans f2, g3.trans f3, g4.trans f4⟩

/-- C9: when a key's transform carries a conditional expression that
evaluates false against the `__conditionals__` symbols, `_ParseKey` discards
the whole key: the tree and the column list (and the heap and the label
registry) are exactly as if the key had not appeared. -/
theorem C9_conditional_discard :
    ∀ (conds : String → Bool) (item : KeyItem) (kao : Bool) (root : TreeNode)
      (p : Proj) (t : Transform) (ce : String) (root' : TreeNode) (p' : Proj),
      item.xform = some t → t.conditional = some ce → conds ce = false →
      parseKey conds item kao root p = .ok (root', p') →
      root' = root ∧ p'.columns = p.columns ∧ p'.heap = p.heap ∧
      p'.snakeHeadings = p.snakeHeadings := by
  intro conds item kao root p t ce root' p' hx hc hf h
  unfold parseKey at h
  rw [hx] at h
  simp only [Option.isSome_some, if_true] at h
  cases hpc : parseClauses (List.dropLast item.rawKey) item.clauses
      { flag := .PROJECT, transform := some t } p with
  | error e => rw [hpc] at h; exact absurd h (by simp)
  | ok q =>
    rw [hpc] at h
    dsimp only at h
    obtain ⟨f1, f2, f3, f4⟩ := parseClauses_frame _ _ _ _ q.1 q.2 hpc
    have hqt : q.1.transform = some t := f1
    have hcf : condFalse conds q.1.transform = true := by
      rw [hqt]
      simp [condFalse, hc, hf]
    rw [hcf] at h
    rw [if_pos rfl] at h
    injection h with h'
    injection h' with h1 h2
    subst h1
    subst h2
    exact ⟨rfl, f2, f3, f4⟩

/-- C9 (witness): a whole-object transform `f(...)` with a false conditional
is discarded, leaving the root and state untouched. -/
theorem C9_conditional_discard_witness :
    (⟨[KeyComp.nm "f"], some ⟨"f", some "c"⟩, []⟩ : KeyItem).xform =
      some (⟨"f", some "c"⟩ : Transform) ∧
    (⟨"f", some "c"⟩ : Transform).conditional = some "c" ∧
    (fun _ : String => false) "c" = false ∧
    parseKey (fun _ => false) ⟨[KeyComp.nm "f"], some ⟨"f", some "c"⟩, []⟩ false
      (.mk 0 []) {} = .ok (.mk 0 [], {}) ∧
    ((.mk 0 [] : TreeNode) = (.mk 0 [] : TreeNode) ∧
      ({} : Proj).columns = ({} : Proj).columns ∧
      ({} : Proj).heap = ({} : Proj).heap ∧
      ({} : Proj).snakeHeadings = ({} : Proj).snakeHeadings) :=
  ⟨rfl, rfl, rfl, rfl,
   C9_conditional_discard (fun _ => false) ⟨[KeyComp.nm "f"], some ⟨"f", some "c"⟩, []⟩
     false (.mk 0 []) {} ⟨"f", some "c"⟩ "c" (.mk 0 []) {} rfl rfl rfl rfl⟩

theorem heapGet_append_len (h : List Attr) (a : Attr) (l : List Attr) :
    heapGet (h ++ a :: l) h.length = a := by
  induction h with
  | nil => rfl
  | cons x rest ih => simpa [heapGet, List.getD] using ih

/-- C10: `Parse` with no expression never fails, adds no columns, registers
no aliases and never invokes `Defaults()`; it returns the bound spec after
ensuring a root exists — keeping an existing root, or creating a fresh
`DEFAULT`-flagged childless root only when the spec had none — and installing
a fresh `PROJECT`-flagged empty tree via `SetEmpty`. -/
theorem C10_empty_parse :
    ∀ (conds : String → Bool) (s : Spec), ∃ s' : Spec,
      Parse conds none s = .ok s' ∧
      s'.proj.columns = s.proj.columns ∧
      s'.proj.aliases = s.proj.aliases ∧
      s'.defaultsCalls = s.defaultsCalls ∧
      (∀ r, s.root = some r → s'.root = some r) ∧
      (s.root = none →
        s'.root = some (.mk s.proj.heap.length []) ∧
        (heapGet s'.proj.heap s.proj.heap.length).flag = .DEFAULT) ∧
      (∃ eid, s.proj.heap.length ≤ eid ∧ s'.empty = some (.mk eid []) ∧
        (heapGet s'.proj.heap eid).flag = .PROJECT) := by
  intro conds s
  cases hr : s.root with
  | some r =>
    have hmain : Parse conds none s = .ok
        { s with
          proj := { s.proj with heap := s.proj.heap ++ [{ flag := Flag.PROJECT }] }
          root := some r
          empty := some (.mk s.proj.heap.length []) } := by
      unfold Parse
      rw [hr]
    refine ⟨_, hmain, rfl, rfl, rfl, ?_, ?_, ?_⟩
    · intro r' hr'
      cases hr'
      rfl
    · intro hn
      exact absurd hn (by simp)
    · refine ⟨s.proj.heap.length, le_refl _, rfl, ?_⟩
      rw [show s.proj.heap ++ [({ flag := Flag.PROJECT } : Attr)] =
            s.proj.heap ++ ({ flag := Flag.PROJECT } : Attr) :: [] from rfl,
          heapGet_append_len]
  | none =>
    have hmain : Parse conds none s = .ok
        { s with
          proj := { s.proj with
            heap := s.proj.heap ++ [{ flag := Flag.DEFAULT }] ++ [{ flag := Flag.PROJECT }] }
          root := some (.mk s.proj.heap.length [])
          empty := some (.mk (s.proj.heap ++ [({ flag := Flag.DEFAULT } : Attr)]).length []) } := by
      unfold Parse
      rw [hr]
    refine ⟨_, hmain, rfl, rfl, rfl, ?_, ?_, ?_⟩
    · intro r' hr'
      exact absurd hr' (by simp)
    · intro _
      constructor
      · rfl
      · have heq : s.proj.heap ++ [({ flag := Flag.DEFAULT } : Attr)] ++
              [({ flag := Flag.PROJECT } : Attr)] =
            s.proj.heap ++ ({ flag := Flag.DEFAULT } :
              Attr) :: [{ flag := Flag.PROJECT }] := by simp
        rw [heq, heapGet_append_len]
    · refine ⟨(s.proj.heap ++ [({ flag := Flag.DEFAULT } : Attr)]).length, by simp, rfl, ?_⟩
      rw [show (s.proj.heap ++ [({ flag := Flag.DEFAULT } : Attr)]) ++
            [({ flag := Flag.PROJECT } : Attr)] =
          (s.proj.heap ++ [({ flag := Flag.DEFAULT } : Attr)]) ++
            ({ flag := Flag.PROJECT } : Attr) :: [] from rfl, heapGet_append_len]

/-- The recognized key-attribute clause names of `_ParseKeyAttributes`. -/
def RECOGNIZED : List String := ["alias", "align", "format", "label", "reverse", "sort"]

/-- The syntax-error conditions for a single key-attribute clause as the
claim states them: a recognized non-boolean clause name (or an unrecognized
name) in boolean or `no-` form; `reverse` with an explicit `=value`; an
unrecognized name; `alias` with a falsy value; `align` with a value outside
the supported alignment set. -/
def badClause (c : Clause) : Bool :=
  match c.cval with
  | none => (if c.cname.startsWith "no-" then c.cname.drop 3 else c.cname) != "reverse"
  | some v =>
    c.cname == "reverse" || !(RECOGNIZED.contains c.cname) ||
    (c.cname == "alias" && !v.truthy) || (c.cname == "align" && !(ALIGNMENTS.contains v))

/-- Whether a result is the (single) error kind, `ExpressionSyntaxError`. -/
def isErr {α : Type} : Except Err α → Bool
  | .error _ => true
  | .ok _ => false

set_option maxHeartbeats 1600000 in
theorem parseClause_isErr (key : Key) (c : Clause) (attr : Attr) (s : Proj) :
    isErr (parseClause key c attr s) = badClause c := by
  cases hcv : c.cval with
  | some v =>
    by_cases h1 : c.cname = "reverse"
    · simp +decide [parseClause, badClause, isErr, hcv, h1]
    · by_cases h2 : c.cname = "alias"
      · cases hv : v.truthy <;>
          simp +decide [parseClause, badClause, isErr, hcv, h1, h2, hv]
      · by_cases h3 : c.cname = "align"
        · by_cases hv : v ∈ ALIGNMENTS <;>
            simp +decide [parseClause, badClause, isErr, hcv, h1, h2, h3, hv]
        · by_cases h4 : c.cname = "format"
          · simp +decide [parseClause, badClause, isErr, hcv, h1, h2, h3, h4]
          · by_cases h5 : c.cname = "label"
            · simp +decide [parseClause, badClause, isErr, hcv, h1, h2, h3, h4, h5]
            · by_cases h6 : c.cname = "sort"
              · simp +decide [parseClause, badClause, isErr, hcv, h1, h2, h3, h4, h5, h6]
              · simp +decide [parseClause, badClause, isErr, BOOLEAN_ATTRIBUTES, RECOGNIZED,
                      hcv, h1, h2, h3, h4, h5, h6]
  | none =>
    by_cases hp : c.cname.startsWith "no-"
    · by_cases h1 : c.cname.drop 3 = "reverse"
      · simp +decide [parseClause, badClause, isErr, BOOLEAN_ATTRIBUTES, hcv, hp, h1]
      · simp +decide [parseClause, badClause, isErr, BOOLEAN_ATTRIBUTES, hcv, hp, h1]
    · by_cases h1 : c.cname = "reverse"
      · rw [h1] at hp
        simp +decide [parseClause, badClause, isErr, hcv, hp, h1]
      · simp +decide [parseClause, badClause, isErr, BOOLEAN_ATTRIBUTES, hcv, hp, h1]

/-- C8: key-attribute clause parsing fails — always and only with the single
`ExpressionSyntaxError` kind, the sole constructor of `Err` — exactly when
some clause of the chain is bad per `badClause`: a recognized non-boolean
name (`alias`, `align`, `format`, `label`, `sort`) or an unrecognized name
given in boolean or `no-` form; `reverse` given an explicit `=value`; an
unrecognized name; `alias` with a falsy value; or `align` with a value
outside the supported alignment set.  Otherwise it succeeds. -/
theorem C8_clause_errors :
    ∀ (key : Key) (cs : List Clause) (attr : Attr) (s : Proj),
      isErr (parseClauses key cs attr s) = cs.any badClause := by
  intro key cs
  induction cs with
  | nil => intro attr s; rfl
  | cons c rest ih =>
    intro attr s
    simp only [parseClauses, List.any_cons]
    cases hc : parseClause key c attr s with
    | error e =>
      have hiErr := parseClause_isErr key c attr s
      rw [hc] at hiErr
      simp only [isErr] at hiErr
      rw [← hiErr]
      simp [isErr]
    | ok p =>
      have hiErr := parseClause_isErr key c attr s
      rw [hc] at hiErr
      simp only [isErr] at hiErr
      rw [← hiErr]
      simp only [Bool.false_or]
      exact ih p.1 p.2

theorem heapSet_length (h : List Attr) (i : Nat) (a : Attr) :
    (heapSet h i a).length = h.length := by
  simp [heapSet]

theorem heapGet_set_ne : ∀ (h : List Attr) (i j : Nat) (a : Attr), j ≠ i →
    heapGet (heapSet h i a) j = heapGet h j := by
  intro h
  induction h with
  | nil => intro i j a _; rfl
  | cons x rest ih =>
    intro i j a hne
    cases i with
    | zero =>
      cases j with
      | zero => exact absurd rfl hne
      | succ j' => rfl
    | succ i' =>
      cases j with
      | zero => rfl
      | succ j' =>
        have : j' ≠ i' := fun he => hne (by rw [he])
        simpa [heapGet, heapSet, List.set, List.getD] using ih i' j' a this

theorem heapGet_set_self : ∀ (h : List Attr) (i : Nat) (a : Attr), i < h.length →
    heapGet (heapSet h i a) i = a := by
  intro h
  induction h with
  | nil => intro i a hi; simp at hi
  | cons x rest ih =>
    intro i a hi
    cases i with
    | zero => rfl
    | succ i' =>
      have : i' < rest.length := by simpa using hi
      simpa [heapGet, heapSet, List.set, List.getD] using ih i' a this

theorem heapSet_oob : ∀ (h : List Attr) (i : Nat) (a : Attr), h.length ≤ i →
    heapSet h i a = h := by
  intro h
  induction h with
  | nil => intro i a _; rfl
  | cons x rest ih =>
    intro i a hi
    cases i with
    | zero => simp at hi
    | succ i' =>
      have : rest.length ≤ i' := by simpa using hi
      simpa [heapSet, List.set] using ih i' a this

theorem heapGet_oob : ∀ (h : List Attr) (j : Nat), h.length ≤ j →
    heapGet h j = { flag := .DEFAULT } := by
  intro h
  induction h with
  | nil => intro j _; cases j <;> rfl
  | cons x rest ih =>
    intro j hj
    cases j with
    | zero => simp at hj
    | succ j' =>
      have : rest.length ≤ j' := by simpa using hj
      simpa [heapGet, List.getD] using ih j' this

theorem heapGet_append_lt : ∀ (h l : List Attr) (j : Nat), j < h.length →
    heapGet (h ++ l) j = heapGet h j := by
  intro h
  induction h with
  | nil => intro l j hj; simp at hj
  | cons x rest ih =>
    intro l j hj
    cases j with
    | zero => rfl
    | succ j' =>
      have : j' < rest.length := by simpa using hj
      simpa [heapGet, List.getD] using ih l j' this

theorem heapGet_append_one_ne (h : List Attr) (x : Attr) (j : Nat) (hne : j ≠ h.length) :
    heapGet (h ++ [x]) j = heapGet h j := by
  rcases Nat.lt_or_ge j h.length with hlt | hge
  · exact heapGet_append_lt h [x] j hlt
  · have hgt : h.length < j := lt_of_le_of_ne hge (fun he => hne he.symm)
    rw [heapGet_oob h j (le_of_lt hgt), heapGet_oob]
    simpa using hgt

theorem heapGet_flag_project_lt (h : List Attr) (j : Nat)
    (hj : (heapGet h j).flag = .PROJECT) : j < h.length := by
  by_contra hge
  rw [heapGet_oob h j (Nat.le_of_not_lt hge)] at hj
  exact absurd hj (by simp)

theorem childGet_childSet_self : ∀ (cs : List (KeyComp × TreeNode)) (c : KeyComp)
    (t : TreeNode), childGet (childSet cs c t) c = some t := by
  intro cs
  induction cs with
  | nil => intro c t; simp [childSet, childGet]
  | cons p rest ih =>
    intro c t
    obtain ⟨k, u⟩ := p
    by_cases hk : k = c
    · simp [childSet, childGet, hk]
    · simp [childSet, childGet, hk, ih]

mutual
theorem cloneTree_ext : ∀ (t : TreeNode) (h : List Attr),
    ∃ e, (cloneTree t h).2 = h ++ e
  | .mk aid kids, h => by
    obtain ⟨e1, he1⟩ := cloneKids_ext kids (h ++ [heapGet h aid])
    refine ⟨[heapGet h aid] ++ e1, ?_⟩
    simp only [cloneTree]
    rw [he1, List.append_assoc]

theorem cloneKids_ext : ∀ (ks : List (KeyComp × TreeNode)) (h : List Attr),
    ∃ e, (cloneKids ks h).2 = h ++ e
  | [], h => ⟨[], by simp [cloneKids]⟩
  | (c, t) :: rest, h => by
    obtain ⟨e1, he1⟩ := cloneTree_ext t h
    obtain ⟨e2, he2⟩ := cloneKids_ext rest (cloneTree t h).2
    refine ⟨e1 ++ e2, ?_⟩
    simp only [cloneKids]
    rw [he2, he1, List.append_assoc]
end

theorem cloneTree_attrId (t : TreeNode) (h : List Attr) :
    (cloneTree t h).1.attrId = h.length := by
  cases t
  rfl

theorem mergeOrder_fields (aa a : Attr) :
    (mergeOrder aa a).flag = a.flag ∧ (mergeOrder aa a).hidden = a.hidden ∧
    (mergeOrder aa a).label = a.label ∧ (mergeOrder aa a).align = a.align ∧
    (mergeOrder aa a).transform = a.transform := by
  unfold mergeOrder
  split <;> exact ⟨rfl, rfl, rfl, rfl, rfl⟩

theorem mergeLabelStep_fields (full : Key) (aa a : Attr) (hs : List String) :
    (mergeLabelStep full aa a hs).1.flag = a.flag ∧
    (mergeLabelStep full aa a hs).1.hidden = a.hidden ∧
    (mergeLabelStep full aa a hs).1.align = a.align ∧
    (mergeLabelStep full aa a hs).1.transform = a.transform := by
  unfold mergeLabelStep
  split_ifs <;> exact ⟨rfl, rfl, rfl, rfl⟩

theorem mergeLabelStep_label_some (full : Key) (aa a : Attr) (hs : List String)
    (hl : aa.label = none) (hsome : a.label.isSome = true) :
    (mergeLabelStep full aa a hs).1.label = a.label := by
  unfold mergeLabelStep
  rw [if_neg (by simp [hl]), if_neg (by simp [Option.isSome_iff_ne_none] at hsome; exact hsome)]

theorem mergeAlign_fields (aa a : Attr) :
    (mergeAlign aa a).flag = a.flag ∧ (mergeAlign aa a).hidden = a.hidden ∧
    (mergeAlign aa a).label = a.label ∧ (mergeAlign aa a).transform = a.transform := by
  unfold mergeAlign
  split <;> exact ⟨rfl, rfl, rfl, rfl⟩

theorem mergeAlign_align_none (aa a : Attr) (hal : aa.align = none) :
    (mergeAlign aa a).align = a.align := by
  unfold mergeAlign
  rw [if_neg (by simp [hal])]

theorem mergeReverse_fields (aa a : Attr) :
    (mergeReverse aa a).flag = a.flag ∧ (mergeReverse aa a).hidden = a.hidden ∧
    (mergeReverse aa a).label = a.label ∧ (mergeReverse aa a).align = a.align ∧
    (mergeReverse aa a).transform = a.transform := by
  unfold mergeReverse
  split_ifs <;> exact ⟨rfl, rfl, rfl, rfl, rfl⟩

theorem mergeTransform_fields (aa a : Attr) :
    (mergeTransform aa a).flag = a.flag ∧ (mergeTransform aa a).hidden = a.hidden ∧
    (mergeTransform aa a).label = a.label ∧ (mergeTransform aa a).align = a.align := by
  unfold mergeTransform
  split <;> exact ⟨rfl, rfl, rfl, rfl⟩

theorem mergeTransform_transform_none (aa a : Attr) (ht : aa.transform = none) :
    (mergeTransform aa a).transform = a.transform := by
  unfold mergeTransform
  rw [if_neg (by simp [ht])]

theorem mergeSubformat_fields (aa a : Attr) :
    (mergeSubformat aa a).flag = a.flag ∧ (mergeSubformat aa a).hidden = a.hidden ∧
    (mergeSubformat aa a).label = a.label ∧ (mergeSubformat aa a).align = a.align ∧
    (mergeSubformat aa a).transform = a.transform := by
  unfold mergeSubformat
  split <;> exact ⟨rfl, rfl, rfl, rfl, rfl⟩

theorem mergeValues_flag (full : Key) (aa : Attr) (a0 : Attr) (hs : List String) :
    (mergeValues full aa a0 hs).1.flag = a0.flag := by
  unfold mergeValues
  rw [(mergeSubformat_fields _ _).1, (mergeTransform_fields _ _).1,
      (mergeReverse_fields _ _).1, (mergeAlign_fields _ _).1,
      (mergeLabelStep_fields _ _ _ _).1, (mergeOrder_fields _ _).1]

theorem mergeValues_hidden (full : Key) (aa : Attr) (a0 : Attr) (hs : List String) :
    (mergeValues full aa a0 hs).1.hidden = a0.hidden := by
  unfold mergeValues
  rw [(mergeSubformat_fields _ _).2.1, (mergeTransform_fields _ _).2.1,
      (mergeReverse_fields _ _).2.1, (mergeAlign_fields _ _).2.1,
      (mergeLabelStep_fields _ _ _ _).2.1, (mergeOrder_fields _ _).2.1]

theorem mergeValues_align (full : Key) (aa : Attr) (a0 : Attr) (hs : List String)
    (hal : aa.align = none) : (mergeValues full aa a0 hs).1.align = a0.align := by
  unfold mergeValues
  rw [(mergeSubformat_fields _ _).2.2.2.1, (mergeTransform_fields _ _).2.2.2,
      (mergeReverse_fields _ _).2.2.2.1, mergeAlign_align_none _ _ hal,
      (mergeLabelStep_fields _ _ _ _).2.2.1, (mergeOrder_fields _ _).2.2.2.1]

theorem mergeValues_transform (full : Key) (aa : Attr) (a0 : Attr) (hs : List String)
    (ht : aa.transform = none) :
    (mergeValues full aa a0 hs).1.transform = a0.transform := by
  unfold mergeValues
  rw [(mergeSubformat_fields _ _).2.2.2.2, mergeTransform_transform_none _ _ ht,
      (mergeReverse_fields _ _).2.2.2.2, (mergeAlign_fields _ _).2.2.2,
      (mergeLabelStep_fields _ _ _ _).2.2.2, (mergeOrder_fields _ _).2.2.2.2]

theorem mergeValues_label_some (full : Key) (aa : Attr) (a0 : Attr) (hs : List String)
    (hl : aa.label = none) (hsome : a0.label.isSome = true) :
    (mergeValues full aa a0 hs).1.label = a0.label := by
  unfold mergeValues
  rw [(mergeSubformat_fields _ _).2.2.1, (mergeTransform_fields _ _).2.2.1,
      (mergeReverse_fields _ _).2.2.1, (mergeAlign_fields _ _).2.2.1,
      mergeLabelStep_label_some _ _ _ _ hl
        (by rw [(mergeOrder_fields _ _).2.2.1]; exact hsome),
      (mergeOrder_fields _ _).2.2.1]

theorem mergeAttr_columns (full : Key) (aa : Attr) (wid : Nat) (s : Proj) :
    (mergeAttr full aa wid s).columns = s.columns := by
  unfold mergeAttr
  rfl

theorem mergeAttr_heap_length (full : Key) (aa : Attr) (wid : Nat) (s : Proj) :
    (mergeAttr full aa wid s).heap.length = s.heap.length := by
  unfold mergeAttr
  simp [heapSet_length]

theorem mergeAttr_get_ne (full : Key) (aa : Attr) (wid : Nat) (s : Proj) (j : Nat)
    (hne : j ≠ wid) : heapGet (mergeAttr full aa wid s).heap j = heapGet s.heap j := by
  unfold mergeAttr
  simp only
  exact heapGet_set_ne _ _ _ _ hne

theorem mergeAttr_flag (full : Key) (aa : Attr) (wid : Nat) (s : Proj) :
    ∀ j, (heapGet (mergeAttr full aa wid s).heap j).flag = (heapGet s.heap j).flag := by
  intro j
  by_cases hij : j = wid
  · subst hij
    by_cases hw : j < s.heap.length
    · unfold mergeAttr
      simp only
      rw [heapGet_set_self _ _ _ hw, mergeValues_flag]
    · unfold mergeAttr
      simp only
      rw [heapSet_oob _ _ _ (Nat.le_of_not_lt hw)]
  · rw [mergeAttr_get_ne _ _ _ _ _ hij]

theorem finishTerminal_node (kao : Bool) (full : Key) (wid : Nat) (nit : Bool)
    (node : TreeNode) (s : Proj) : (finishTerminal kao full wid nit node s).1 = node := by
  unfold finishTerminal
  split_ifs <;> rfl

theorem finishTerminal_heap_length (kao : Bool) (full : Key) (wid : Nat) (nit : Bool)
    (node : TreeNode) (s : Proj) :
    (finishTerminal kao full wid nit node s).2.heap.length = s.heap.length := by
  unfold finishTerminal
  split_ifs <;> simp [heapSet_length]

theorem finishTerminal_columns (kao : Bool) (full : Key) (wid : Nat) (nit : Bool)
    (node : TreeNode) (s : Proj) :
    (finishTerminal kao full wid nit node s).2.columns =
      (if !kao || (heapGet s.heap wid).hidden then s.columns ++ [(full, wid)]
       else s.columns) := by
  unfold finishTerminal
  split_ifs <;> rfl

theorem finishTerminal_get_ne (kao : Bool) (full : Key) (wid : Nat) (nit : Bool)
    (node : TreeNode) (s : Proj) (j : Nat) (hne : j ≠ wid) :
    heapGet (finishTerminal kao full wid nit node s).2.heap j = heapGet s.heap j := by
  unfold finishTerminal
  split_ifs <;> first
    | exact heapGet_set_ne _ _ _ _ hne
    | rfl

theorem innerFlagStep_length (h : List Attr) (i : Nat) :
    (innerFlagStep h i).length = h.length := by
  unfold innerFlagStep
  split <;> simp [heapSet_length]

theorem setHidden_columns (wid : Nat) (s : Proj) : (setHidden wid s).columns = s.columns := rfl

theorem setHidden_heap_length (wid : Nat) (s : Proj) :
    (setHidden wid s).heap.length = s.heap.length := by
  unfold setHidden
  simp [heapSet_length]

theorem setHidden_get_ne (wid : Nat) (s : Proj) (j : Nat) (hne : j ≠ wid) :
    heapGet (setHidden wid s).heap j = heapGet s.heap j := by
  unfold setHidden
  exact heapGet_set_ne _ _ _ _ hne

theorem setHidden_lat (wid : Nat) (s : Proj) (j : Nat) :
    ((heapGet (setHidden wid s).heap j).flag = (heapGet s.heap j).flag) ∧
    ((heapGet (setHidden wid s).heap j).label = (heapGet s.heap j).label) ∧
    ((heapGet (setHidden wid s).heap j).align = (heapGet s.heap j).align) ∧
    ((heapGet (setHidden wid s).heap j).transform = (heapGet s.heap j).transform) := by
  by_cases hij : j = wid
  · subst hij
    by_cases hw : j < s.heap.length
    · unfold setHidden
      simp only
      rw [heapGet_set_self _ _ _ hw]
      exact ⟨rfl, rfl, rfl, rfl⟩
    · unfold setHidden
      simp only
      rw [heapSet_oob _ _ _ (Nat.le_of_not_lt hw)]
      exact ⟨rfl, rfl, rfl, rfl⟩
  · rw [setHidden_get_ne _ _ _ hij]
    exact ⟨rfl, rfl, rfl, rfl⟩

theorem heapGet_set_modflag (h : List Attr) (wid : Nat) (fl : Flag) (j : Nat) :
    ((heapGet (heapSet h wid { heapGet h wid with flag := fl }) j).label =
      (heapGet h j).label) ∧
    ((heapGet (heapSet h wid { heapGet h wid with flag := fl }) j).align =
      (heapGet h j).align) ∧
    ((heapGet (heapSet h wid { heapGet h wid with flag := fl }) j).transform =
      (heapGet h j).transform) := by
  by_cases hij : j = wid
  · subst hij
    by_cases hw : j < h.length
    · rw [heapGet_set_self _ _ _ hw]
      exact ⟨rfl, rfl, rfl⟩
    · rw [heapSet_oob _ _ _ (Nat.le_of_not_lt hw)]
      exact ⟨rfl, rfl, rfl⟩
  · rw [heapGet_set_ne _ _ _ _ hij]
    exact ⟨rfl, rfl, rfl⟩

theorem heapGet_set_project_flag (h : List Attr) (wid : Nat) (j : Nat)
    (hj : (heapGet h j).flag = .PROJECT) :
    (heapGet (heapSet h wid { heapGet h wid with flag := .PROJECT }) j).flag = .PROJECT := by
  by_cases hij : j = wid
  · subst hij
    by_cases hw : j < h.length
    · rw [heapGet_set_self _ _ _ hw]
    · rw [heapSet_oob _ _ _ (Nat.le_of_not_lt hw)]
      exact hj
  · rw [heapGet_set_ne _ _ _ _ hij]
    exact hj

theorem finishTerminal_lat (kao : Bool) (full : Key) (wid : Nat) (nit : Bool)
    (node : TreeNode) (s : Proj) (j : Nat) :
    ((heapGet (finishTerminal kao full wid nit node s).2.heap j).label =
      (heapGet s.heap j).label) ∧
    ((heapGet (finishTerminal kao full wid nit node s).2.heap j).align =
      (heapGet s.heap j).align) ∧
    ((heapGet (finishTerminal kao full wid nit node s).2.heap j).transform =
      (heapGet s.heap j).transform) := by
  unfold finishTerminal
  split_ifs <;> first
    | exact heapGet_set_modflag s.heap wid _ j
    | exact ⟨rfl, rfl, rfl⟩

theorem finishTerminal_true_projPres (kao : Bool) (full : Key) (wid : Nat)
    (node : TreeNode) (s : Proj) (j : Nat) (hj : (heapGet s.heap j).flag = .PROJECT) :
    (heapGet (finishTerminal kao full wid true node s).2.heap j).flag = .PROJECT := by
  unfold finishTerminal
  split_ifs with h1 h2
  · exact heapGet_set_project_flag s.heap wid j hj
  · simp at h2
  · exact hj

theorem mergeAttr_lat (full : Key) (aa : Attr) (wid : Nat) (s : Proj) (j : Nat)
    (hl : aa.label = none) (hal : aa.align = none) (ht : aa.transform = none) :
    ((heapGet (mergeAttr full aa wid s).heap j).align = (heapGet s.heap j).align) ∧
    ((heapGet (mergeAttr full aa wid s).heap j).transform =
      (heapGet s.heap j).transform) ∧
    ((heapGet s.heap j).label.isSome = true →
      (heapGet (mergeAttr full aa wid s).heap j).label = (heapGet s.heap j).label) := by
  by_cases hij : j = wid
  · subst hij
    by_cases hw : j < s.heap.length
    · unfold mergeAttr
      simp only
      rw [heapGet_set_self _ _ _ hw]
      exact ⟨mergeValues_align _ _ _ _ hal, mergeValues_transform _ _ _ _ ht,
        fun hsome => mergeValues_label_some _ _ _ _ hl hsome⟩
    · unfold mergeAttr
      simp only
      rw [heapSet_oob _ _ _ (Nat.le_of_not_lt hw)]
      exact ⟨rfl, rfl, fun _ => rfl⟩
  · rw [mergeAttr_get_ne _ _ _ _ _ hij]
    exact ⟨rfl, rfl, fun _ => rfl⟩

/-- C4 base-case description of the already-in-tree terminal step. -/
theorem addExisting_spec (kao : Bool) (full : Key) (aa : Attr) (child : TreeNode)
    (node : TreeNode) (s : Proj) :
    (addExisting kao full aa child node s).1 = node ∧
    (if !kao && s.columns.any (fun col => col.1 = full) then
       (addExisting kao full aa child node s).2.heap.length = s.heap.length + 1 ∧
       (addExisting kao full aa child node s).2.columns =
         s.columns ++ [(full, s.heap.length)]
     else
       (addExisting kao full aa child node s).2.heap.length = s.heap.length ∧
       ((addExisting kao full aa child node s).2.columns = s.columns ∨
        (addExisting kao full aa child node s).2.columns =
          s.columns ++ [(full, child.attrId)])) := by
  unfold addExisting
  split_ifs with hdup
  · have hkao : (!kao) = true := (Bool.and_eq_true _ _ |>.mp hdup).1
    refine ⟨finishTerminal_node _ _ _ _ _ _, ?_, ?_⟩
    · rw [finishTerminal_heap_length, mergeAttr_heap_length]
      simp [setHidden_heap_length]
    · rw [finishTerminal_columns]
      rw [if_pos (by simp [hkao])]
      rw [mergeAttr_columns]
      rfl
  · refine ⟨finishTerminal_node _ _ _ _ _ _, ?_, ?_⟩
    · rw [finishTerminal_heap_length, mergeAttr_heap_length, setHidden_heap_length]
    · rw [finishTerminal_columns]
      split_ifs
      · right
        rw [mergeAttr_columns]
        rfl
      · left
        rw [mergeAttr_columns]
        rfl

theorem addExisting_projPres (kao : Bool) (full : Key) (aa : Attr) (child : TreeNode)
    (node : TreeNode) (s : Proj) (j : Nat) (hj : (heapGet s.heap j).flag = .PROJECT) :
    (heapGet (addExisting kao full aa child node s).2.heap j).flag = .PROJECT := by
  unfold addExisting
  have hlt := heapGet_flag_project_lt s.heap j hj
  split_ifs with hdup
  · have hne : j ≠ s.heap.length := Nat.ne_of_lt hlt
    apply finishTerminal_true_projPres
    rw [mergeAttr_get_ne _ _ _ _ _ hne, setHidden_get_ne _ _ _ hne,
      heapGet_append_one_ne _ _ _ hne]
    exact hj
  · apply finishTerminal_true_projPres
    rw [mergeAttr_flag, (setHidden_lat _ _ _).1]
    exact hj

theorem addNewProjection_projPres (kao : Bool) (full : Key) (aa : Attr) (c : KeyComp)
    (node : TreeNode) (s : Proj) (j : Nat) (hj : (heapGet s.heap j).flag = .PROJECT) :
    (heapGet (addNewProjection kao full aa c node s).2.heap j).flag = .PROJECT := by
  unfold addNewProjection
  have hlt := heapGet_flag_project_lt s.heap j hj
  have hne : j ≠ s.heap.length := Nat.ne_of_lt hlt
  rw [finishTerminal_get_ne _ _ _ _ _ _ _ hne, mergeAttr_get_ne _ _ _ _ _ hne]
  simp only
  rw [heapGet_append_one_ne _ _ _ hne]
  exact hj

theorem addTerminal_projPres (kao : Bool) (full : Key) (aa : Attr) (c : KeyComp)
    (node : TreeNode) (s : Proj) (j : Nat) (hj : (heapGet s.heap j).flag = .PROJECT) :
    (heapGet (addTerminal kao full aa c node s).2.heap j).flag = .PROJECT := by
  unfold addTerminal
  have hlt := heapGet_flag_project_lt s.heap j hj
  cases hcg : childGet node.children c with
  | some child => exact addExisting_projPres kao full aa child node s j hj
  | none =>
    cases c with
    | idx i =>
      cases hw : childGet node.children .wild with
      | some wnode =>
        simp only
        have hwid : (cloneTree wnode s.heap).1.attrId = s.heap.length :=
          cloneTree_attrId wnode s.heap
        have hne : j ≠ (cloneTree wnode s.heap).1.attrId := by
          rw [hwid]; exact Nat.ne_of_lt hlt
        rw [finishTerminal_get_ne _ _ _ _ _ _ _ hne, mergeAttr_get_ne _ _ _ _ _ hne]
        simp only
        obtain ⟨e, he⟩ := cloneTree_ext wnode s.heap
        rw [he, heapGet_append_lt _ _ _ hlt]
        exact hj
      | none => exact addNewProjection_projPres kao full aa _ node s j hj
    | nm n => exact addNewProjection_projPres kao full aa _ node s j hj
    | wild => exact addNewProjection_projPres kao full aa _ node s j hj

theorem addKeyAux_projPres (kao : Bool) (full : Key) (aa : Attr) :
    ∀ (comps : List KeyComp) (node : TreeNode) (s : Proj) (j : Nat),
      (heapGet s.heap j).flag = .PROJECT →
      (heapGet (addKeyAux kao full aa comps node s).2.heap j).flag = .PROJECT := by
  intro comps
  induction comps with
  | nil =>
    intro node s j hj
    exact addTerminal_projPres kao full aa _ node s j hj
  | cons c rest ih =>
    cases rest with
    | nil =>
      intro node s j hj
      exact addTerminal_projPres kao full aa c node s j hj
    | cons c2 rest2 =>
      intro node s j hj
      simp only [addKeyAux]
      cases hcg : childGet node.children c with
      | some child =>
        simp only
        apply ih
        unfold innerFlagStep
        split
        · by_cases hij : j = child.attrId
          · subst hij
            rename_i hflag
            exact absurd hj hflag
          · rw [heapGet_set_ne _ _ _ _ hij]
            exact hj
        · exact hj
      | none =>
        simp only
        apply ih
        have hlt := heapGet_flag_project_lt s.heap j hj
        simp only
        rw [heapGet_append_one_ne _ _ _ (Nat.ne_of_lt hlt)]
        exact hj

/-- The effective terminal path of a key: the empty key denotes the
whole-object entry stored under the empty name. -/
def effPath (k : Key) : Key :=
  if k = [] then [.nm ""] else k

theorem addKeyAux_nil_eq (kao : Bool) (full : Key) (aa : Attr) (node : TreeNode)
    (s : Proj) :
    addKeyAux kao full aa [] node s = addKeyAux kao full aa [.nm ""] node s := rfl

/-- C4 induction: inserting a key whose full path already exists in the tree
keeps the terminal node (and its attribute id) intact; outside
key-attributes-only mode a key that is already a column gets a fresh copied
attribute appended to the columns, otherwise the one tree attribute is
mutated in place with no new allocation. -/
theorem addKeyAux_existing (kao : Bool) (full : Key) (aa : Attr) :
    ∀ (comps : List KeyComp) (node : TreeNode) (s : Proj) (t : TreeNode),
      comps ≠ [] →
      lookupPath node comps = some t →
      lookupPath (addKeyAux kao full aa comps node s).1 comps = some t ∧
      (if !kao && s.columns.any (fun col => col.1 = full) then
         (addKeyAux kao full aa comps node s).2.heap.length = s.heap.length + 1 ∧
         (addKeyAux kao full aa comps node s).2.columns =
           s.columns ++ [(full, s.heap.length)]
       else
         (addKeyAux kao full aa comps node s).2.heap.length = s.heap.length ∧
         ((addKeyAux kao full aa comps node s).2.columns = s.columns ∨
          (addKeyAux kao full aa comps node s).2.columns =
            s.columns ++ [(full, t.attrId)])) := by
  intro comps
  induction comps with
  | nil => intro node s t hne _; exact absurd rfl hne
  | cons c rest ih =>
    cases rest with
    | nil =>
      intro node s t _ hpath
      cases hcg : childGet node.children c with
      | none => rw [lookupPath, hcg] at hpath; exact absurd hpath (by simp)
      | some ch =>
        rw [lookupPath, hcg] at hpath
        simp only [lookupPath] at hpath
        cases hpath
        have hspec := addExisting_spec kao full aa t node s
        have hat : addKeyAux kao full aa [c] node s = addExisting kao full aa t node s := by
          simp only [addKeyAux, addTerminal, hcg]
        rw [hat]
        exact ⟨by rw [hspec.1, lookupPath, hcg]; rfl, hspec.2⟩
    | cons c2 rest2 =>
      intro node s t _ hpath
      cases hcg : childGet node.children c with
      | none => rw [lookupPath, hcg] at hpath; exact absurd hpath (by simp)
      | some ch =>
        rw [lookupPath, hcg] at hpath
        simp only [addKeyAux, hcg]
        have hs1cols :
            ({ s with heap := innerFlagStep s.heap ch.attrId } : Proj).columns
              = s.columns := rfl
        have hs1len :
            ({ s with heap := innerFlagStep s.heap ch.attrId } : Proj).heap.length
              = s.heap.length := innerFlagStep_length _ _
        obtain ⟨hihp, hihrest⟩ :=
          ih ch { s with heap := innerFlagStep s.heap ch.attrId } t (by simp) hpath
        constructor
        · rw [lookupPath]
          simp only [TreeNode.children, childGet_childSet_self]
          exact hihp
        · rw [hs1cols, hs1len] at hihrest
          exact hihrest

/-- C6 induction: with an order-only `attribute_add`, inserting along an
existing path preserves the terminal attribute's `align` and `transform`,
and its `label` whenever one was already set. -/
theorem addKeyAux_lat (kao : Bool) (full : Key) (aa : Attr)
    (hl : aa.label = none) (hal : aa.align = none) (ht : aa.transform = none) :
    ∀ (comps : List KeyComp) (node : TreeNode) (s : Proj) (t : TreeNode),
      comps ≠ [] →
      lookupPath node comps = some t →
      t.attrId < s.heap.length →
      ((heapGet (addKeyAux kao full aa comps node s).2.heap t.attrId).align =
        (heapGet s.heap t.attrId).align) ∧
      ((heapGet (addKeyAux kao full aa comps node s).2.heap t.attrId).transform =
        (heapGet s.heap t.attrId).transform) ∧
      ((heapGet s.heap t.attrId).label.isSome = true →
        (heapGet (addKeyAux kao full aa comps node s).2.heap t.attrId).label =
          (heapGet s.heap t.attrId).label) := by
  intro comps
  induction comps with
  | nil => intro node s t hne _ _; exact absurd rfl hne
  | cons c rest ih =>
    cases rest with
    | nil =>
      intro node s t _ hpath hw
      cases hcg : childGet node.children c with
      | none => rw [lookupPath, hcg] at hpath; exact absurd hpath (by simp)
      | some ch =>
        rw [lookupPath, hcg] at hpath
        simp only [lookupPath] at hpath
        cases hpath
        have hat : addKeyAux kao full aa [c] node s = addExisting kao full aa t node s := by
          simp only [addKeyAux, addTerminal, hcg]
        rw [hat]
        unfold addExisting
        split_ifs with hdup
        · have hne : t.attrId ≠ s.heap.length := Nat.ne_of_lt hw
          rw [finishTerminal_get_ne _ _ _ _ _ _ _ hne, mergeAttr_get_ne _ _ _ _ _ hne,
            setHidden_get_ne _ _ _ hne, heapGet_append_one_ne _ _ _ hne]
          exact ⟨rfl, rfl, fun _ => rfl⟩
        · obtain ⟨ft1, ft2, ft3⟩ := finishTerminal_lat kao full t.attrId true node
            (mergeAttr full aa t.attrId (setHidden t.attrId s)) t.attrId
          obtain ⟨ma1, ma2, ma3⟩ := mergeAttr_lat full aa t.attrId (setHidden t.attrId s)
            t.attrId hl hal ht
          obtain ⟨-, sh2, sh3, sh4⟩ := setHidden_lat t.attrId s t.attrId
          refine ⟨?_, ?_, ?_⟩
          · rw [ft2, ma1, sh3]
          · rw [ft3, ma2, sh4]
          · intro hsome
            rw [ft1, ma3 (by rw [sh2]; exact hsome), sh2]
    | cons c2 rest2 =>
      intro node s t _ hpath hw
      cases hcg : childGet node.children c with
      | none => rw [lookupPath, hcg] at hpath; exact absurd hpath (by simp)
      | some ch =>
        rw [lookupPath, hcg] at hpath
        simp only [addKeyAux, hcg]
        obtain ⟨if1, if2, if3, if4⟩ := setHidden_lat t.attrId s t.attrId
        have hstep : ∀ k, heapGet (innerFlagStep s.heap ch.attrId) k =
            heapGet s.heap k ∨
            (heapGet (innerFlagStep s.heap ch.attrId) k).label =
                (heapGet s.heap k).label ∧
              (heapGet (innerFlagStep s.heap ch.attrId) k).align =
                (heapGet s.heap k).align ∧
              (heapGet (innerFlagStep s.heap ch.attrId) k).transform =
                (heapGet s.heap k).transform := by
          intro k
          unfold innerFlagStep
          split
          · by_cases hkc : k = ch.attrId
            · subst hkc
              by_cases hk : ch.attrId < s.heap.length
              · right
                rw [heapGet_set_self _ _ _ hk]
                exact ⟨rfl, rfl, rfl⟩
              · left
                rw [heapSet_oob _ _ _ (Nat.le_of_not_lt hk)]
            · left
              exact heapGet_set_ne _ _ _ _ hkc
          · left
            rfl
        have hlat : (heapGet (innerFlagStep s.heap ch.attrId) t.attrId).label =
              (heapGet s.heap t.attrId).label ∧
            (heapGet (innerFlagStep s.heap ch.attrId) t.attrId).align =
              (heapGet s.heap t.attrId).align ∧
            (heapGet (innerFlagStep s.heap ch.attrId) t.attrId).transform =
              (heapGet s.heap t.attrId).transform := by
          rcases hstep t.attrId with heq | hlat
          · rw [heq]
            exact ⟨rfl, rfl, rfl⟩
          · exact hlat
        have hw' : t.attrId <
            ({ s with heap := innerFlagStep s.heap ch.attrId } : Proj).heap.length := by
          rw [innerFlagStep_length]
          exact hw
        obtain ⟨ih1, ih2, ih3⟩ :=
          ih ch { s with heap := innerFlagStep s.heap ch.attrId } t (by simp) hpath hw'
        refine ⟨?_, ?_, ?_⟩
        · rw [ih1, hlat.2.1]
        · rw [ih2, hlat.2.2]
        · intro hsome
          rw [ih3 (by rw [hlat.1]; exact hsome), hlat.1]

/-- C4 (amended): exactly one attribute object exists per distinct key path:
re-inserting a key whose path already exists leaves the terminal tree node
(and hence its attribute identity) unchanged; when the key is already a
registered column and the parser is not in key-attributes-only mode —
regardless of any transform — a fresh copy (the next heap id) is allocated
and appended to the column list, while otherwise the one tree attribute is
mutated in place with no allocation and any appended column references the
tree attribute itself. -/
theorem C4_amended :
    ∀ (kao : Bool) (key : Key) (aa : Attr) (root : TreeNode) (s : Proj) (t : TreeNode)
      (root' : TreeNode) (s' : Proj),
      lookupPath root (effPath key) = some t →
      t.attrId < s.heap.length →
      addKey kao key aa root s = (root', s') →
      lookupPath root' (effPath key) = some t ∧
      (if !kao && s.columns.any (fun col => col.1 = key) then
         s'.heap.length = s.heap.length + 1 ∧
         s'.columns = s.columns ++ [(key, s.heap.length)] ∧
         s.heap.length ≠ t.attrId
       else
         s'.heap.length = s.heap.length ∧
         (s'.columns = s.columns ∨ s'.columns = s.columns ++ [(key, t.attrId)])) := by
  intro kao key aa root s t root' s' hpath hw heq
  have hne : effPath key ≠ [] := by
    unfold effPath
    split
    · simp
    · assumption
  have heq2 : addKeyAux kao key aa (effPath key) root s = (root', s') := by
    rw [← heq]
    unfold addKey effPath
    split
    · rename_i hk
      rw [hk]
      exact (addKeyAux_nil_eq kao [] aa root s).symm
    · rfl
  have haux := addKeyAux_existing kao key aa (effPath key) root s t hne hpath
  rw [heq2] at haux
  simp only at haux
  by_cases hdup : (!kao && s.columns.any fun col => col.1 = key) = true
  · rw [if_pos hdup] at haux ⊢
    exact ⟨haux.1, haux.2.1, haux.2.2, ne_of_gt hw⟩
  · rw [if_neg hdup] at haux ⊢
    exact haux

/-- C4 (amended, witness): re-inserting key `a`, already a column with tree
attribute id 1 and no transform anywhere, copies the attribute to fresh id 2
for the second column entry while the tree keeps id 1. -/
theorem C4_amended_witness :
    lookupPath (.mk 0 [(.nm "a", .mk 1 [])]) (effPath [KeyComp.nm "a"]) =
      some (.mk 1 []) ∧
    (TreeNode.mk 1 []).attrId <
      ({ heap := [{ flag := .DEFAULT }, { flag := .PROJECT, label := some (.vstr "A") }],
         columns := [([KeyComp.nm "a"], 1)], snakeHeadings := ["A"] } : Proj).heap.length ∧
    (lookupPath
        (addKey false [KeyComp.nm "a"] { flag := .PROJECT } (.mk 0 [(.nm "a", .mk 1 [])])
          { heap := [{ flag := .DEFAULT }, { flag := .PROJECT, label := some (.vstr "A") }],
            columns := [([KeyComp.nm "a"], 1)], snakeHeadings := ["A"] }).1
        (effPath [KeyComp.nm "a"]) = some (.mk 1 []) ∧
      (if !false &&
          ({ heap := [{ flag := .DEFAULT }, { flag := .PROJECT, label := some (.vstr "A") }],
             columns := [([KeyComp.nm "a"], 1)],
             snakeHeadings := ["A"] } : Proj).columns.any
            (fun col => col.1 = [KeyComp.nm "a"]) then
         (addKey false [KeyComp.nm "a"] { flag := .PROJECT } (.mk 0 [(.nm "a", .mk 1 [])])
          { heap := [{ flag := .DEFAULT }, { flag := .PROJECT, label := some (.vstr "A") }],
            columns := [([KeyComp.nm "a"], 1)],
            snakeHeadings := ["A"] }).2.heap.length =
           ({ heap := [{ flag := .DEFAULT }, { flag := .PROJECT, label := some (.vstr "A") }],
              columns := [([KeyComp.nm "a"], 1)],
              snakeHeadings := ["A"] } : Proj).heap.length + 1 ∧
         (addKey false [KeyComp.nm "a"] { flag := .PROJECT } (.mk 0 [(.nm "a", .mk 1 [])])
          { heap := [{ flag := .DEFAULT }, { flag := .PROJECT, label := some (.vstr "A") }],
            columns := [([KeyComp.nm "a"], 1)],
            snakeHeadings := ["A"] }).2.columns =
           ({ heap := [{ flag := .DEFAULT }, { flag := .PROJECT, label := some (.vstr "A") }],
              columns := [([KeyComp.nm "a"], 1)],
              snakeHeadings := ["A"] } : Proj).columns ++
             [([KeyComp.nm "a"],
               ({ heap := [{ flag := .DEFAULT },
                    { flag := .PROJECT, label := some (.vstr "A") }],
                  columns := [([KeyComp.nm "a"], 1)],
                  snakeHeadings := ["A"] } : Proj).heap.length)] ∧
         ({ heap := [{ flag := .DEFAULT }, { flag := .PROJECT, label := some (.vstr "A") }],
            columns := [([KeyComp.nm "a"], 1)],
            snakeHeadings := ["A"] } : Proj).heap.length ≠ (TreeNode.mk 1 []).attrId
       else
         (addKey false [KeyComp.nm "a"] { flag := .PROJECT } (.mk 0 [(.nm "a", .mk 1 [])])
          { heap := [{ flag := .DEFAULT }, { flag := .PROJECT, label := some (.vstr "A") }],
            columns := [([KeyComp.nm "a"], 1)],
            snakeHeadings := ["A"] }).2.heap.length =
           ({ heap := [{ flag := .DEFAULT }, { flag := .PROJECT, label := some (.vstr "A") }],
              columns := [([KeyComp.nm "a"], 1)],
              snakeHeadings := ["A"] } : Proj).heap.length ∧
         ((addKey false [KeyComp.nm "a"] { flag := .PROJECT } (.mk 0 [(.nm "a", .mk 1 [])])
          { heap := [{ flag := .DEFAULT }, { flag := .PROJECT, label := some (.vstr "A") }],
            columns := [([KeyComp.nm "a"], 1)],
            snakeHeadings := ["A"] }).2.columns =
           ({ heap := [{ flag := .DEFAULT }, { flag := .PROJECT, label := some (.vstr "A") }],
              columns := [([KeyComp.nm "a"], 1)],
              snakeHeadings := ["A"] } : Proj).columns ∨
          (addKey false [KeyComp.nm "a"] { flag := .PROJECT } (.mk 0 [(.nm "a", .mk 1 [])])
          { heap := [{ flag := .DEFAULT }, { flag := .PROJECT, label := some (.vstr "A") }],
            columns := [([KeyComp.nm "a"], 1)],
            snakeHeadings := ["A"] }).2.columns =
           ({ heap := [{ flag := .DEFAULT }, { flag := .PROJECT, label := some (.vstr "A") }],
              columns := [([KeyComp.nm "a"], 1)],
              snakeHeadings := ["A"] } : Proj).columns ++
             [([KeyComp.nm "a"], (TreeNode.mk 1 []).attrId)]))) :=
  ⟨rfl, by decide,
   C4_amended false [KeyComp.nm "a"] { flag := .PROJECT } (.mk 0 [(.nm "a", .mk 1 [])])
     { heap := [{ flag := .DEFAULT }, { flag := .PROJECT, label := some (.vstr "A") }],
       columns := [([KeyComp.nm "a"], 1)], snakeHeadings := ["A"] }
     (.mk 1 []) _ _ rfl (by decide) rfl⟩

/-- C6: re-mentioning an existing key with an `attribute_add` that sets no
label, align or transform (e.g. only `:sort=N`) leaves the tree attribute's
previously set `label`, `align` and `transform` unchanged. -/
theorem C6_merge_frame :
    ∀ (kao : Bool) (key : Key) (aa : Attr) (root : TreeNode) (s : Proj) (t : TreeNode)
      (root' : TreeNode) (s' : Proj),
      lookupPath root (effPath key) = some t →
      t.attrId < s.heap.length →
      aa.label = none → aa.align = none → aa.transform = none →
      addKey kao key aa root s = (root', s') →
      (heapGet s'.heap t.attrId).align = (heapGet s.heap t.attrId).align ∧
      (heapGet s'.heap t.attrId).transform = (heapGet s.heap t.attrId).transform ∧
      ((heapGet s.heap t.attrId).label.isSome = true →
        (heapGet s'.heap t.attrId).label = (heapGet s.heap t.attrId).label) := by
  intro kao key aa root s t root' s' hpath hw hl hal ht heq
  have hne : effPath key ≠ [] := by
    unfold effPath
    split
    · simp
    · assumption
  have heq2 : addKeyAux kao key aa (effPath key) root s = (root', s') := by
    rw [← heq]
    unfold addKey effPath
    split
    · rename_i hk
      rw [hk]
      exact (addKeyAux_nil_eq kao [] aa root s).symm
    · rfl
  have haux := addKeyAux_lat kao key aa hl hal ht (effPath key) root s t hne hpath hw
  rw [heq2] at haux
  exact haux

/-- C6 (witness): an order-only re-mention of key `a` keeps its label `A`,
its center alignment and its absent transform. -/
theorem C6_merge_frame_witness :
    lookupPath (.mk 0 [(.nm "a", .mk 1 [])]) (effPath [KeyComp.nm "a"]) =
      some (.mk 1 []) ∧
    (TreeNode.mk 1 []).attrId <
      ({ heap := [{ flag := .DEFAULT },
           { flag := .PROJECT, label := some (.vstr "A"),
             align := some (.vstr "center") }] } : Proj).heap.length ∧
    ({ flag := Flag.PROJECT, order := some (.vint 7) } : Attr).label = none ∧
    ({ flag := Flag.PROJECT, order := some (.vint 7) } : Attr).align = none ∧
    ({ flag := Flag.PROJECT, order := some (.vint 7) } : Attr).transform = none ∧
    ((heapGet
        (addKey true [KeyComp.nm "a"] { flag := .PROJECT, order := some (.vint 7) }
          (.mk 0 [(.nm "a", .mk 1 [])])
          { heap := [{ flag := .DEFAULT },
              { flag := .PROJECT, label := some (.vstr "A"),
                align := some (.vstr "center") }] }).2.heap
        (TreeNode.mk 1 []).attrId).align =
      (heapGet
        ({ heap := [{ flag := .DEFAULT },
            { flag := .PROJECT, label := some (.vstr "A"),
              align := some (.vstr "center") }] } : Proj).heap
        (TreeNode.mk 1 []).attrId).align ∧
     (heapGet
        (addKey true [KeyComp.nm "a"] { flag := .PROJECT, order := some (.vint 7) }
          (.mk 0 [(.nm "a", .mk 1 [])])
          { heap := [{ flag := .DEFAULT },
              { flag := .PROJECT, label := some (.vstr "A"),
                align := some (.vstr "center") }] }).2.heap
        (TreeNode.mk 1 []).attrId).transform =
      (heapGet
        ({ heap := [{ flag := .DEFAULT },
            { flag := .PROJECT, label := some (.vstr "A"),
              align := some (.vstr "center") }] } : Proj).heap
        (TreeNode.mk 1 []).attrId).transform ∧
     ((heapGet
        ({ heap := [{ flag := .DEFAULT },
            { flag := .PROJECT, label := some (.vstr "A"),
              align := some (.vstr "center") }] } : Proj).heap
        (TreeNode.mk 1 []).attrId).label.isSome = true →
      (heapGet
        (addKey true [KeyComp.nm "a"] { flag := .PROJECT, order := some (.vint 7) }
          (.mk 0 [(.nm "a", .mk 1 [])])
          { heap := [{ flag := .DEFAULT },
              { flag := .PROJECT, label := some (.vstr "A"),
                align := some (.vstr "center") }] }).2.heap
        (TreeNode.mk 1 []).attrId).label =
      (heapGet
        ({ heap := [{ flag := .DEFAULT },
            { flag := .PROJECT, label := some (.vstr "A"),
              align := some (.vstr "center") }] } : Proj).heap
        (TreeNode.mk 1 []).attrId).label)) :=
  ⟨rfl, by decide, rfl, rfl, rfl,
   C6_merge_frame true [KeyComp.nm "a"] { flag := .PROJECT, order := some (.vint 7) }
     (.mk 0 [(.nm "a", .mk 1 [])])
     { heap := [{ flag := .DEFAULT },
         { flag := .PROJECT, label := some (.vstr "A"),
           align := some (.vstr "center") }] }
     (.mk 1 []) _ _ rfl (by decide) rfl rfl rfl rfl⟩

/-- C7: for every non-terminal path component, `_AddKey` sets an existing
child's flag to `INNER` unless it is already `PROJECT` (the in-range inner
step), and no `_AddKey` call ever changes an existing `PROJECT` attribute to
any other flag — a projected column is never demoted by appearing as a path
prefix of a later, longer key. -/
theorem C7_no_demotion :
    (∀ (h : List Attr) (i : Nat), i < h.length →
      (heapGet (innerFlagStep h i) i).flag =
        (if (heapGet h i).flag = .PROJECT then .PROJECT else .INNER)) ∧
    (∀ (kao : Bool) (key : Key) (aa : Attr) (root : TreeNode) (s : Proj)
       (root' : TreeNode) (s' : Proj) (j : Nat),
      addKey kao key aa root s = (root', s') →
      (heapGet s.heap j).flag = .PROJECT → (heapGet s'.heap j).flag = .PROJECT) := by
  constructor
  · intro h i hi
    unfold innerFlagStep
    by_cases hp : (heapGet h i).flag = .PROJECT
    · rw [if_neg (not_not_intro hp), if_pos hp]
      exact hp
    · rw [if_pos hp, if_neg hp]
      rw [heapGet_set_self _ _ _ hi]
  · intro kao key aa root s root' s' j heq hj
    have heq' : addKeyAux kao key aa key root s = (root', s') := heq
    have := addKeyAux_projPres kao key aa key root s j hj
    rw [heq'] at this
    exact this

/-- C7 (witness): the inner step takes a `DEFAULT` entry to `INNER`, and
inserting `b.c` leaves the `PROJECT` flag of the existing attribute 0 (key
`a`) intact. -/
theorem C7_no_demotion_witness :
    ((0 : Nat) < ([{ flag := Flag.DEFAULT }] : List Attr).length ∧
     (heapGet (innerFlagStep [{ flag := Flag.DEFAULT }] 0) 0).flag =
       (if (heapGet [{ flag := Flag.DEFAULT }] 0).flag = .PROJECT then .PROJECT
        else .INNER)) ∧
    (addKey false [KeyComp.nm "b", KeyComp.nm "c"] { flag := .PROJECT } (.mk 1 [])
        { heap := [{ flag := .PROJECT, label := some (.vstr "A") },
            { flag := .DEFAULT }] } =
      ((addKey false [KeyComp.nm "b", KeyComp.nm "c"] { flag := .PROJECT } (.mk 1 [])
        { heap := [{ flag := .PROJECT, label := some (.vstr "A") },
            { flag := .DEFAULT }] }).1,
       (addKey false [KeyComp.nm "b", KeyComp.nm "c"] { flag := .PROJECT } (.mk 1 [])
        { heap := [{ flag := .PROJECT, label := some (.vstr "A") },
            { flag := .DEFAULT }] }).2) ∧
     (heapGet
        ({ heap := [{ flag := .PROJECT, label := some (.vstr "A") },
            { flag := .DEFAULT }] } : Proj).heap 0).flag = .PROJECT ∧
     (heapGet
        (addKey false [KeyComp.nm "b", KeyComp.nm "c"] { flag := .PROJECT } (.mk 1 [])
          { heap := [{ flag := .PROJECT, label := some (.vstr "A") },
              { flag := .DEFAULT }] }).2.heap 0).flag = .PROJECT) :=
  ⟨⟨by decide, C7_no_demotion.1 [{ flag := Flag.DEFAULT }] 0 (by decide)⟩,
   rfl, by decide,
   C7_no_demotion.2 false [KeyComp.nm "b", KeyComp.nm "c"] { flag := .PROJECT }
     (.mk 1 [])
     { heap := [{ flag := .PROJECT, label := some (.vstr "A") }, { flag := .DEFAULT }] }
     _ _ 0 rfl (by decide)⟩

/-- C10 (witness): the empty parse on a fresh spec. -/
theorem C10_empty_parse_witness :
    ∃ s' : Spec,
      Parse (fun _ => true) none {} = .ok s' ∧
      s'.proj.columns = ({} : Spec).proj.columns ∧
      s'.proj.aliases = ({} : Spec).proj.aliases ∧
      s'.defaultsCalls = ({} : Spec).defaultsCalls ∧
      (∀ r, ({} : Spec).root = some r → s'.root = some r) ∧
      (({} : Spec).root = none →
        s'.root = some (.mk ({} : Spec).proj.heap.length []) ∧
        (heapGet s'.proj.heap ({} : Spec).proj.heap.length).flag = .DEFAULT) ∧
      (∃ eid, ({} : Spec).proj.heap.length ≤ eid ∧ s'.empty = some (.mk eid []) ∧
        (heapGet s'.proj.heap eid).flag = .PROJECT) :=
  C10_empty_parse (fun _ => true) {}

end RP
